import Mathlib

/-!
Shallow embedding of the governance daemon (github.com/chronnie/governance):
the data model (`models` package), the in-memory store
(`storage/memory`, src/unnamed/part_003), the registry
(`internal/registry/registry.go`), the event worker handlers
(`internal/worker/worker.go`) and the health checker
(`internal/notifier/notifier.go`).

Go maps are represented as association lists; map equality is read
extensionally (Go maps are unordered, the list order is a representation
artifact).  Timestamps (`time.Time`) are represented as `Nat` (the zero
value `time.Time\x7b\x7d` becomes `0`); the wall clock is passed explicitly as a
`now` argument to every operation that calls `time.Now()`.  HTTP traffic is
external input: the health prober's network outcomes are an oracle argument,
and notifier fan-out is returned as a list instead of spawning goroutines.
-/

namespace Governance

/-- Transport protocol tag (`models.Protocol`: http, tcp, pfcp, gtp, udp). -/
inductive Protocol where
  | http
  | tcp
  | pfcp
  | gtp
  | udp
deriving DecidableEq

/-- Service status tag (`models.ServiceStatus`: healthy, unhealthy, unknown). -/
inductive ServiceStatus where
  | healthy
  | unhealthy
  | unknown
deriving DecidableEq

/-- Notification event type (`models.EventType`: register, unregister, update, reconcile). -/
inductive EventType where
  | register
  | unregister
  | update
  | reconcile
deriving DecidableEq

/-- Modelled from the spec: `models.ProviderInfo` (the models package is not
under src/; its shape is fixed by spec section 3 and the models unit tests):
a transport endpoint (protocol, ip, port). -/
structure ProviderInfo where
  Protocol : Protocol
  IP : String
  Port : Nat
deriving DecidableEq

/-- Modelled from the spec: `models.ServiceInfo` (the models package is not
under src/; its shape is fixed by spec section 3 and the models unit tests). -/
structure ServiceInfo where
  ServiceName : String
  PodName : String
  Providers : List ProviderInfo
  HealthCheckURL : String
  NotificationURL : String
  Subscriptions : List String
  Status : ServiceStatus
  RegisteredAt : Nat
  LastHealthCheck : Nat
deriving DecidableEq

/-- Modelled from the spec: `models.ServiceInfo.GetKey` (the models package is
not under src/): composite key `serviceName + ":" + podName`, as required by
spec section 3 and checked by `TestServiceInfoGetKey`. -/
def ServiceInfo.GetKey (s : ServiceInfo) : String :=
  s.ServiceName ++ ":" ++ s.PodName

/-- Modelled from the spec: `models.ServiceRegistration` (the models package is
not under src/; shape fixed by spec section 6 and the models unit tests). -/
structure ServiceRegistration where
  ServiceName : String
  PodName : String
  Providers : List ProviderInfo
  HealthCheckURL : String
  NotificationURL : String
  Subscriptions : List String
deriving DecidableEq

/-- Composite key of a registration, as built by `Registry.Unregister`
(`registry.go` line 61) and `ServiceInfo.GetKey`. -/
def ServiceRegistration.key (reg : ServiceRegistration) : String :=
  reg.ServiceName ++ ":" ++ reg.PodName

/-- Modelled from the spec: `models.PodInfo` (models package not under src/):
one entry of a notification payload's pod list. -/
structure PodInfo where
  PodName : String
  Status : ServiceStatus
  Providers : List ProviderInfo
deriving DecidableEq

/-- Modelled from the spec: `models.NotificationPayload` (models package not
under src/): the JSON body POSTed to subscribers. -/
structure NotificationPayload where
  ServiceName : String
  EventType : EventType
  Timestamp : Nat
  Pods : List PodInfo
deriving DecidableEq

/-! ### Association lists standing in for Go maps -/

/-- Lookup in an association list (`m[k]` on a Go map, presence-tested). -/
def lookupA {α : Type} : List (String × α) → String → Option α
  | [], _ => none
  | p :: t, k => if p.1 = k then some p.2 else lookupA t k

/-- Map assignment `m[k] = v`: replace the binding in place, or append when
the key is absent. -/
def insertA {α : Type} : List (String × α) → String → α → List (String × α)
  | [], k, v => [(k, v)]
  | p :: t, k, v => if p.1 = k then (k, v) :: t else p :: insertA t k v

/-- Map deletion `delete(m, k)`. -/
def eraseA {α : Type} : List (String × α) → String → List (String × α)
  | [], _ => []
  | p :: t, k => if p.1 = k then eraseA t k else p :: eraseA t k

/-- Removal of the first occurrence of an element, mirroring the splice
`append(subscribers[:i], subscribers[i+1:]...)` at the first matching index
in `MemoryStore.RemoveSubscription`. -/
def removeFirst : List String → String → List String
  | [], _ => []
  | x :: t, k => if x = k then t else x :: removeFirst t k

/-! ### MemoryStore (src/unnamed/part_003, package memory)

Each operation returns the resulting store; operations whose Go counterpart
returns an error additionally return a success flag when some caller branches
on it (`SaveService`, `UpdateHealthStatus`, `DeleteService`).  The remaining
error returns are discarded by every caller in the repository, and the store
is unchanged whenever an error is returned, so they are dropped here. -/

/-- `MemoryStore`: the `services` map keyed by `"serviceName:podName"` and the
`subscriptions` map keyed by service group (value: list of subscriber keys). -/
structure MemoryStore where
  services : List (String × ServiceInfo)
  subscriptions : List (String × List String)
deriving DecidableEq

/-- `NewMemoryStore`: both maps empty. -/
def emptyStore : MemoryStore := ⟨[], []⟩

/-- `MemoryStore.GetService`: lookup by composite key (`nil, err` becomes
`none`; the returned copy is value semantics here). -/
def MemoryStore.GetService (m : MemoryStore) (key : String) : Option ServiceInfo :=
  lookupA m.services key

/-- `MemoryStore.SaveService`: rejects an empty key, otherwise stores a copy
under `service.GetKey()`.  (The `nil` argument check has no counterpart for a
non-nullable Lean value.) -/
def MemoryStore.SaveService (m : MemoryStore) (service : ServiceInfo) :
    MemoryStore × Bool :=
  if service.GetKey = "" then (m, false)
  else ({ m with services := insertA m.services service.GetKey service }, true)

/-- Filtering loop of `MemoryStore.GetServicesByName`. -/
def valuesByName : List (String × ServiceInfo) → String → List ServiceInfo
  | [], _ => []
  | p :: t, n =>
      if p.2.ServiceName = n then p.2 :: valuesByName t n else valuesByName t n

/-- `MemoryStore.GetServicesByName`: all pods whose `ServiceName` matches. -/
def MemoryStore.GetServicesByName (m : MemoryStore) (serviceName : String) :
    List ServiceInfo :=
  valuesByName m.services serviceName

/-- `MemoryStore.GetAllServices`: every stored service. -/
def MemoryStore.GetAllServices (m : MemoryStore) : List ServiceInfo :=
  m.services.map (·.2)

/-- `MemoryStore.DeleteService`: errors (flag `false`) when the key is absent,
otherwise deletes the entry. -/
def MemoryStore.DeleteService (m : MemoryStore) (key : String) :
    MemoryStore × Bool :=
  match lookupA m.services key with
  | none => (m, false)
  | some _ => ({ m with services := eraseA m.services key }, true)

/-- `MemoryStore.UpdateHealthStatus`: errors (flag `false`) when the key is
absent, otherwise overwrites `Status` and `LastHealthCheck` in place. -/
def MemoryStore.UpdateHealthStatus (m : MemoryStore) (key : String)
    (status : ServiceStatus) (timestamp : Nat) : MemoryStore × Bool :=
  match lookupA m.services key with
  | none => (m, false)
  | some service =>
      let updated := { service with Status := status, LastHealthCheck := timestamp }
      ({ m with services := insertA m.services key updated }, true)

/-- `MemoryStore.AddSubscription`: rejects empty subscriber key or group
(error, state unchanged — the error is discarded by the registry); a
no-op when the subscriber is already in the group's list; otherwise appends
the subscriber to the group's list (creating the entry). -/
def MemoryStore.AddSubscription (m : MemoryStore) (subscriberKey serviceGroup : String) :
    MemoryStore :=
  if subscriberKey = "" then m
  else if serviceGroup = "" then m
  else
    let subscribers := (lookupA m.subscriptions serviceGroup).getD []
    if subscriberKey ∈ subscribers then m
    else
      let newSubs := subscribers ++ [subscriberKey]
      { m with subscriptions := insertA m.subscriptions serviceGroup newSubs }

/-- `MemoryStore.RemoveSubscription`: a no-op when the group has no entry or
the subscriber is not in its list; otherwise removes the first occurrence and
deletes the entry when the list becomes empty. -/
def MemoryStore.RemoveSubscription (m : MemoryStore) (subscriberKey serviceGroup : String) :
    MemoryStore :=
  match lookupA m.subscriptions serviceGroup with
  | none => m
  | some subscribers =>
      if subscriberKey ∈ subscribers then
        let newSubs := removeFirst subscribers subscriberKey
        if newSubs = [] then
          { m with subscriptions := eraseA m.subscriptions serviceGroup }
        else
          { m with subscriptions := insertA m.subscriptions serviceGroup newSubs }
      else m

/-- `MemoryStore.RemoveAllSubscriptions`: calls `RemoveSubscription` for every
group.  Go ranges over the live map, but `RemoveSubscription` only ever
mutates or deletes the entry it is called for, so ranging over a snapshot of
the keys is observationally identical. -/
def MemoryStore.RemoveAllSubscriptions (m : MemoryStore) (subscriberKey : String) :
    MemoryStore :=
  (m.subscriptions.map (·.1)).foldl
    (fun s serviceGroup => s.RemoveSubscription subscriberKey serviceGroup) m

/-- `MemoryStore.GetSubscribers`: the group's subscriber list (a copy), `[]`
when absent. -/
def MemoryStore.GetSubscribers (m : MemoryStore) (serviceGroup : String) : List String :=
  (lookupA m.subscriptions serviceGroup).getD []

/-- `MemoryStore.GetSubscriberServices`: resolve every subscriber key,
silently skipping keys whose service no longer exists. -/
def MemoryStore.GetSubscriberServices (m : MemoryStore) (serviceGroup : String) :
    List ServiceInfo :=
  (m.GetSubscribers serviceGroup).foldr
    (fun k acc =>
      match m.GetService k with
      | some v => v :: acc
      | none => acc) []

/-! ### Registry (src/internal/registry/registry.go)

The registry is called only from the single event-worker path; state is
threaded explicitly and `time.Now()` becomes the `now : Nat` argument. -/

/-- `Registry.addSubscriptions`: add every group of the list (errors from the
store are discarded). -/
def addSubscriptions (m : MemoryStore) (subscriberKey : String)
    (subscriptions : List String) : MemoryStore :=
  subscriptions.foldl (fun s serviceName => s.AddSubscription subscriberKey serviceName) m

/-- `Registry.removeSubscriptions`: remove every group of the list. -/
def removeSubscriptions (m : MemoryStore) (subscriberKey : String)
    (subscriptions : List String) : MemoryStore :=
  subscriptions.foldl (fun s serviceName => s.RemoveSubscription subscriberKey serviceName) m

/-- The fresh `ServiceInfo` built at the top of `Registry.Register`:
`status = unknown`, `registeredAt = now`, zero `lastHealthCheck`. -/
def mkServiceInfo (reg : ServiceRegistration) (now : Nat) : ServiceInfo :=
  { ServiceName := reg.ServiceName
    PodName := reg.PodName
    Providers := reg.Providers
    HealthCheckURL := reg.HealthCheckURL
    NotificationURL := reg.NotificationURL
    Subscriptions := reg.Subscriptions
    Status := ServiceStatus.unknown
    RegisteredAt := now
    LastHealthCheck := 0 }

/-- `Registry.Register`: retract the previous incarnation's subscriptions when
the key already exists, save the fresh record, then add the new
subscriptions; on a save error the handler returns early with the built
record.  Returns the built `ServiceInfo` and the new store. -/
def RegisterR (m : MemoryStore) (reg : ServiceRegistration) (now : Nat) :
    ServiceInfo × MemoryStore :=
  let serviceInfo := mkServiceInfo reg now
  let key := serviceInfo.GetKey
  let m1 :=
    match m.GetService key with
    | some oldService => removeSubscriptions m key oldService.Subscriptions
    | none => m
  match m1.SaveService serviceInfo with
  | (m2, true) => (serviceInfo, addSubscriptions m2 key reg.Subscriptions)
  | (m2, false) => (serviceInfo, m2)

/-- `Registry.Unregister`: `none` and no change when the key is absent;
otherwise retract the service's subscriptions, delete its record (the delete
error is discarded) and return the removed record. -/
def UnregisterR (m : MemoryStore) (serviceName podName : String) :
    Option ServiceInfo × MemoryStore :=
  let key := serviceName ++ ":" ++ podName
  match m.GetService key with
  | none => (none, m)
  | some service =>
      let m1 := removeSubscriptions m key service.Subscriptions
      (some service, (m1.DeleteService key).1)

/-- `Registry.UpdateHealthStatus`: `false` and no change when the key is
absent; otherwise write the new status and `lastHealthCheck = now` through
the store and return whether the status value changed (`false` on a store
error). -/
def UpdateHealthStatusR (m : MemoryStore) (key : String) (status : ServiceStatus)
    (now : Nat) : Bool × MemoryStore :=
  match m.GetService key with
  | none => (false, m)
  | some service =>
      match m.UpdateHealthStatus key status now with
      | (m1, true) => (if service.Status = status then false else true, m1)
      | (m1, false) => (false, m1)

/-! ### Notifier payload building and worker handlers
(src/internal/notifier/notifier.go, src/internal/worker/worker.go)

`NotifySubscribers` fires one background POST per subscriber; the observable
fan-out is the list of (subscriber, payload) pairs. -/

/-- A single fire-and-forget notification: the targeted subscriber and the
payload POSTed to its `notificationURL`. -/
structure Notification where
  target : ServiceInfo
  payload : NotificationPayload
deriving DecidableEq

/-- `BuildNotificationPayload`: project every pod to `PodInfo` and stamp the
payload with the current time. -/
def BuildNotificationPayload (serviceName : String) (eventType : EventType)
    (pods : List ServiceInfo) (now : Nat) : NotificationPayload :=
  { ServiceName := serviceName
    EventType := eventType
    Timestamp := now
    Pods := pods.map (fun pod =>
      { PodName := pod.PodName, Status := pod.Status, Providers := pod.Providers }) }

/-- `Notifier.NotifySubscribers`: one notification per subscriber, in order. -/
def NotifySubscribers (subscribers : List ServiceInfo)
    (payload : NotificationPayload) : List Notification :=
  subscribers.map (fun s => { target := s, payload := payload })

/-- `EventWorker.handleHealthCheck`: look the service up (stop when absent),
probe (the probe's verdict is the `newStatus` argument — HTTP is external),
update the health status, and fan out an `update` payload only when the
status value changed. -/
def handleHealthCheck (m : MemoryStore) (serviceKey : String)
    (newStatus : ServiceStatus) (now : Nat) : MemoryStore × List Notification :=
  match m.GetService serviceKey with
  | none => (m, [])
  | some serviceInfo =>
      match UpdateHealthStatusR m serviceKey newStatus now with
      | (statusChanged, m1) =>
          if statusChanged then
            let servicePods := m1.GetServicesByName serviceInfo.ServiceName
            let payload :=
              BuildNotificationPayload serviceInfo.ServiceName EventType.update servicePods now
            let subscribers := m1.GetSubscriberServices serviceInfo.ServiceName
            (m1, NotifySubscribers subscribers payload)
          else (m1, [])

/-- `EventWorker.handleUnregister`: unregister (stop without notifying when
the key was absent), then fan out an `unregister` payload carrying the
remaining pods of the service. -/
def handleUnregister (m : MemoryStore) (serviceName podName : String) (now : Nat) :
    MemoryStore × List Notification :=
  match UnregisterR m serviceName podName with
  | (none, m1) => (m1, [])
  | (some _, m1) =>
      let servicePods := m1.GetServicesByName serviceName
      let payload := BuildNotificationPayload serviceName EventType.unregister servicePods now
      let subscribers := m1.GetSubscriberServices serviceName
      (m1, NotifySubscribers subscribers payload)

/-- Grouping loop of `handleReconcile`:
`serviceGroups[service.ServiceName] = append(..., service)`. -/
def groupByName (services : List ServiceInfo) : List (String × List ServiceInfo) :=
  services.foldl
    (fun groups svc =>
      insertA groups svc.ServiceName ((lookupA groups svc.ServiceName).getD [] ++ [svc]))
    []

/-- `EventWorker.handleReconcile` with no database configured.
Modelled from the spec: the `storage.DualStore` implementation is not under
src/ (only its interface and callers are); per spec section 4.1 the database
is optional and, with none configured, `GetDatabase` yields nil so the
`SyncFromDatabase` branch is skipped and the registry reads the cache.
The handler groups all services by name and, for each group with at least one
subscriber, fans out a `reconcile` payload of the whole group. -/
def handleReconcile (m : MemoryStore) (now : Nat) : MemoryStore × List Notification :=
  let allServices := m.GetAllServices
  let serviceGroups := groupByName allServices
  let notifs := serviceGroups.foldr
    (fun group acc =>
      let payload := BuildNotificationPayload group.1 EventType.reconcile group.2 now
      let subscribers := m.GetSubscriberServices group.1
      if subscribers.length > 0 then NotifySubscribers subscribers payload ++ acc
      else acc)
    []
  (m, notifs)

/-! ### HealthChecker (src/internal/notifier/notifier.go)

One probe attempt over HTTP has three observable outcomes: the request could
not be built, the round trip failed (transport error or timeout), or a
response with some status code arrived.  The network is an oracle
`probe : Nat → AttemptResult` giving the outcome of each attempt. -/

/-- Outcome of one health-probe attempt. -/
inductive AttemptResult where
  | requestError
  | transportError
  | response (statusCode : Nat)
deriving DecidableEq

/-- A successful attempt: a response with a 2xx status code. -/
def attemptSucceeds : AttemptResult → Bool
  | AttemptResult.response code => decide (200 ≤ code ∧ code < 300)
  | _ => false

/-- The retry loop of `HealthChecker.CheckHealth`, indexed by the current
attempt number and the remaining attempts (`maxRetries + 1` at the start):
any non-2xx outcome falls through to the next attempt. -/
def checkLoop (probe : Nat → AttemptResult) (attempt : Nat) : Nat → Bool
  | 0 => false
  | remaining + 1 =>
      if attemptSucceeds (probe attempt) then true
      else checkLoop probe (attempt + 1) remaining

/-- `HealthChecker.CheckHealth`: up to `maxRetries + 1` attempts. -/
def CheckHealth (probe : Nat → AttemptResult) (maxRetries : Nat) : Bool :=
  checkLoop probe 0 (maxRetries + 1)

/-- Number of attempts the loop performs before returning. -/
def attemptsLoop (probe : Nat → AttemptResult) (attempt : Nat) : Nat → Nat
  | 0 => 0
  | remaining + 1 =>
      if attemptSucceeds (probe attempt) then 1
      else 1 + attemptsLoop probe (attempt + 1) remaining

/-- Attempts performed by `CheckHealth`. -/
def attemptsMade (probe : Nat → AttemptResult) (maxRetries : Nat) : Nat :=
  attemptsLoop probe 0 (maxRetries + 1)

/-- Seconds slept by the loop, in order: before attempt `i ≥ 1` it sleeps
`2 ^ (i - 1)` seconds (`time.Duration(1 << uint(attempt-1)) * time.Second`),
including the sleep preceding a successful attempt. -/
def backoffsLoop (probe : Nat → AttemptResult) (attempt : Nat) : Nat → List Nat
  | 0 => []
  | remaining + 1 =>
      let sleeps := if attempt = 0 then [] else [2 ^ (attempt - 1)]
      if attemptSucceeds (probe attempt) then sleeps
      else sleeps ++ backoffsLoop probe (attempt + 1) remaining

/-- Backoff sleeps performed by `CheckHealth`. -/
def backoffs (probe : Nat → AttemptResult) (maxRetries : Nat) : List Nat :=
  backoffsLoop probe 0 (maxRetries + 1)

/-- `HealthChecker.GetHealthStatus`: `healthy` when `CheckHealth` succeeds,
`unhealthy` otherwise. -/
def GetHealthStatus (probe : Nat → AttemptResult) (maxRetries : Nat) : ServiceStatus :=
  if CheckHealth probe maxRetries then ServiceStatus.healthy else ServiceStatus.unhealthy

/-! ### Operation sequences over the registry (for the quantified invariants) -/

/-- One registry mutation, as dispatched by the single event worker. -/
inductive RegOp where
  | registerOp (reg : ServiceRegistration) (now : Nat)
  | unregisterOp (serviceName podName : String)
  | updateOp (key : String) (status : ServiceStatus) (now : Nat)
deriving DecidableEq

/-- Apply one registry mutation to the store. -/
def applyOp (m : MemoryStore) : RegOp → MemoryStore
  | RegOp.registerOp reg now => (RegisterR m reg now).2
  | RegOp.unregisterOp sn pn => (UnregisterR m sn pn).2
  | RegOp.updateOp key st now => (UpdateHealthStatusR m key st now).2

/-- Run a sequence of mutations from the empty registry. -/
def runOps (ops : List RegOp) : MemoryStore :=
  ops.foldl applyOp emptyStore

/-- A registration whose declared subscriptions carry no empty group name
(the store rejects the empty group name). -/
def ValidOp : RegOp → Prop
  | RegOp.registerOp reg _ => "" ∉ reg.Subscriptions
  | _ => True

instance : DecidablePred ValidOp := by
  intro op
  cases op with
  | registerOp reg now => exact inferInstanceAs (Decidable ("" ∉ reg.Subscriptions))
  | unregisterOp sn pn => exact inferInstanceAs (Decidable True)
  | updateOp k s n => exact inferInstanceAs (Decidable True)

/-! ### Invariants and state equivalence -/

/-- The subscriber list of a group as observed through the index (`[]` when
the group has no entry, matching Go's zero-value read). -/
def subsOf (m : MemoryStore) (serviceGroup : String) : List String :=
  (lookupA m.subscriptions serviceGroup).getD []

/-- Well-formed subscription entries: every stored list is non-empty and free
of duplicate subscriber keys. -/
def SubsWF (m : MemoryStore) : Prop :=
  ∀ g l, lookupA m.subscriptions g = some l → l ≠ [] ∧ l.Nodup

/-- Index soundness: every `(subscriberKey, group)` pair in the index belongs
to a registered service whose `subscriptions` contains the group. -/
def IndexSound (m : MemoryStore) : Prop :=
  ∀ g k, k ∈ subsOf m g →
    ∃ v, lookupA m.services k = some v ∧ g ∈ v.Subscriptions

/-- Index completeness: every group in a registered service's `subscriptions`
appears in the index under that service's key. -/
def IndexComplete (m : MemoryStore) : Prop :=
  ∀ k v g, lookupA m.services k = some v → g ∈ v.Subscriptions → k ∈ subsOf m g

/-- Extensional equality of two stores: the two Go maps hold the same
bindings (Go maps are unordered; the association-list order is a
representation artifact). -/
def StoreEq (a b : MemoryStore) : Prop :=
  (∀ k, lookupA a.services k = lookupA b.services k) ∧
  (∀ g, lookupA a.subscriptions g = lookupA b.subscriptions g)

/-- Effect of `RemoveSubscription subscriberKey g` on the group's own entry,
as a function of the entry before the call. -/
def removeEntry (subscriberKey : String) : Option (List String) → Option (List String)
  | none => none
  | some l =>
      if subscriberKey ∈ l then
        if removeFirst l subscriberKey = [] then none
        else some (removeFirst l subscriberKey)
      else some l

/-- Each subscription entry holds `subscriberKey` at most once (a consequence
of `SubsWF`; exactly what makes one `RemoveSubscription` retract a key for
good). -/
def AtMostOnce (m : MemoryStore) (subscriberKey : String) : Prop :=
  ∀ g l, lookupA m.subscriptions g = some l → subscriberKey ∉ removeFirst l subscriberKey

/-- The timestamp-free part of a payload: service name, event type, pod list. -/
def payloadCore (p : NotificationPayload) : String × EventType × List PodInfo :=
  (p.ServiceName, p.EventType, p.Pods)

/-- The timestamp-free part of a notification. -/
def notifCore (n : Notification) : ServiceInfo × (String × EventType × List PodInfo) :=
  (n.target, payloadCore n.payload)

/-! ### Concrete fixtures used by witnesses and counterexamples -/

/-- A registration of pod `a:p` subscribing to group `B`. -/
def regA : ServiceRegistration :=
  { ServiceName := "a", PodName := "p", Providers := []
    HealthCheckURL := "hu", NotificationURL := "nu", Subscriptions := ["B"] }

/-- A registration of pod `B:q` (the group `a:p` subscribes to). -/
def regB : ServiceRegistration :=
  { ServiceName := "B", PodName := "q", Providers := []
    HealthCheckURL := "hb", NotificationURL := "nb", Subscriptions := [] }

/-- A probe oracle: attempt 1 receives a 204 response, every other attempt
hits a transport error. -/
def probeW : Nat → AttemptResult :=
  fun i => if i = 1 then AttemptResult.response 204 else AttemptResult.transportError

/-- A registration whose subscription list contains the empty group name. -/
def regEmptyGroup : ServiceRegistration :=
  { ServiceName := "a", PodName := "p", Providers := []
    HealthCheckURL := "hu", NotificationURL := "nu", Subscriptions := [""] }

/-! ### Lemmas: association lists -/

theorem lookupA_insertA {α : Type} (l : List (String × α)) (k k' : String) (v : α) :
    lookupA (insertA l k v) k' = if k' = k then some v else lookupA l k' := by
  induction l with
  | nil =>
      by_cases h : k' = k
      · simp [insertA, lookupA, h]
      · have h' : ¬ k = k' := fun hh => h hh.symm
        simp [insertA, lookupA, h, h']
  | cons p t ih =>
      by_cases h1 : p.1 = k
      · by_cases h2 : k' = k
        · simp [insertA, lookupA, h1, h2]
        · have h3 : ¬ k = k' := fun hh => h2 hh.symm
          have h4 : ¬ p.1 = k' := fun hh => h2 (hh.symm.trans h1)
          simp [insertA, lookupA, h1, h2, h3, h4]
      · by_cases h2 : p.1 = k'
        · have h3 : ¬ k' = k := fun hh => h1 (h2.trans hh)
          simp [insertA, lookupA, h1, h2, h3]
        · simp [insertA, lookupA, h1, h2, ih]

theorem lookupA_eraseA {α : Type} (l : List (String × α)) (k k' : String) :
    lookupA (eraseA l k) k' = if k' = k then none else lookupA l k' := by
  induction l with
  | nil => simp [eraseA, lookupA]
  | cons p t ih =>
      by_cases h1 : p.1 = k
      · by_cases h2 : k' = k
        · subst h2
          simp [eraseA, lookupA, h1, ih]
        · have h4 : ¬ p.1 = k' := fun hh => h2 (hh.symm.trans h1)
          have h5 : ¬ k = k' := fun hh => h2 hh.symm
          simp [eraseA, lookupA, h1, h2, h4, h5, ih]
      · by_cases h2 : p.1 = k'
        · have h3 : ¬ k' = k := fun hh => h1 (h2.trans hh)
          simp [eraseA, lookupA, h1, h2, h3]
        · simp [eraseA, lookupA, h1, h2, ih]

theorem lookupA_eq_none_of_not_mem_keys {α : Type} (l : List (String × α)) (k : String)
    (h : k ∉ l.map (·.1)) : lookupA l k = none := by
  induction l with
  | nil => rfl
  | cons p t ih =>
      simp only [List.map_cons, List.mem_cons] at h
      push_neg at h
      have h1 : ¬ p.1 = k := fun hh => h.1 hh.symm
      simp only [lookupA, if_neg h1, ih h.2]

theorem eraseA_eq_self_of_not_mem {α : Type} (l : List (String × α)) (k : String)
    (h : lookupA l k = none) : eraseA l k = l := by
  induction l with
  | nil => rfl
  | cons p t ih =>
      simp only [lookupA] at h
      by_cases h1 : p.1 = k
      · simp [h1] at h
      · simp only [eraseA, if_neg h1]
        rw [ih (by simpa [h1] using h)]

/-! ### Lemmas: removeFirst -/

theorem removeFirst_of_not_mem (l : List String) (k : String) (h : k ∉ l) :
    removeFirst l k = l := by
  induction l with
  | nil => rfl
  | cons x t ih =>
      simp only [List.mem_cons] at h
      push_neg at h
      have h1 : ¬ x = k := fun hh => h.1 hh.symm
      simp only [removeFirst, if_neg h1, ih h.2]

theorem removeFirst_sublist (l : List String) (k : String) :
    List.Sublist (removeFirst l k) l := by
  induction l with
  | nil => simp [removeFirst]
  | cons x t ih =>
      simp only [removeFirst]
      by_cases h : x = k
      · rw [if_pos h]; exact List.sublist_cons_self x t
      · rw [if_neg h]; exact ih.cons₂ x

theorem nodup_removeFirst (l : List String) (k : String) (h : l.Nodup) :
    (removeFirst l k).Nodup :=
  h.sublist (removeFirst_sublist l k)

theorem mem_removeFirst_of_ne (l : List String) (k j : String) (hne : j ≠ k) :
    j ∈ removeFirst l k ↔ j ∈ l := by
  induction l with
  | nil => simp [removeFirst]
  | cons x t ih =>
      simp only [removeFirst]
      by_cases h : x = k
      · rw [if_pos h]
        subst h
        simp [List.mem_cons, hne]
      · rw [if_neg h]
        simp [List.mem_cons, ih]

theorem not_mem_removeFirst_of_nodup (l : List String) (k : String) (h : l.Nodup) :
    k ∉ removeFirst l k := by
  induction l with
  | nil => simp [removeFirst]
  | cons x t ih =>
      simp only [removeFirst]
      rcases List.nodup_cons.mp h with ⟨hx, ht⟩
      by_cases hxk : x = k
      · rw [if_pos hxk]
        subst hxk
        exact hx
      · rw [if_neg hxk]
        simp only [List.mem_cons]
        push_neg
        exact ⟨fun h' => hxk h'.symm, ih ht⟩

theorem removeFirst_append_singleton (l : List String) (k : String) (h : k ∉ l) :
    removeFirst (l ++ [k]) k = l := by
  induction l with
  | nil => simp [removeFirst]
  | cons x t ih =>
      simp only [List.mem_cons] at h
      push_neg at h
      have h1 : ¬ x = k := fun hh => h.1 hh.symm
      simp only [List.cons_append, removeFirst, if_neg h1]
      show x :: removeFirst (t ++ [k]) k = x :: t
      rw [ih h.2]

/-! ### Lemmas: single store operations -/

theorem addSub_services (m : MemoryStore) (sk g : String) :
    (m.AddSubscription sk g).services = m.services := by
  simp only [MemoryStore.AddSubscription]
  repeat' split
  all_goals rfl

theorem lookupA_addSub_ne (m : MemoryStore) (sk g h : String) (hne : h ≠ g) :
    lookupA (m.AddSubscription sk g).subscriptions h = lookupA m.subscriptions h := by
  simp only [MemoryStore.AddSubscription]
  repeat' split
  all_goals try rfl
  simp only [lookupA_insertA, if_neg hne]

theorem lookupA_addSub_self (m : MemoryStore) (sk g : String) :
    lookupA (m.AddSubscription sk g).subscriptions g =
      if sk = "" ∨ g = "" ∨ sk ∈ subsOf m g then lookupA m.subscriptions g
      else some (subsOf m g ++ [sk]) := by
  by_cases h1 : sk = ""
  · simp [MemoryStore.AddSubscription, h1]
  by_cases h2 : g = ""
  · simp [MemoryStore.AddSubscription, h1, h2]
  by_cases h3 : sk ∈ subsOf m g
  all_goals simp only [subsOf] at h3
  · simp [MemoryStore.AddSubscription, subsOf, h1, h2, h3]
  · simp [MemoryStore.AddSubscription, subsOf, h1, h2, h3, lookupA_insertA]

theorem removeSub_services (m : MemoryStore) (sk g : String) :
    (m.RemoveSubscription sk g).services = m.services := by
  simp only [MemoryStore.RemoveSubscription]
  repeat' split
  all_goals rfl

theorem lookupA_removeSub_ne (m : MemoryStore) (sk g h : String) (hne : h ≠ g) :
    lookupA (m.RemoveSubscription sk g).subscriptions h = lookupA m.subscriptions h := by
  simp only [MemoryStore.RemoveSubscription]
  repeat' split
  all_goals try rfl
  · simp only [lookupA_eraseA, if_neg hne]
  · simp only [lookupA_insertA, if_neg hne]

theorem lookupA_removeSub_self (m : MemoryStore) (sk g : String) :
    lookupA (m.RemoveSubscription sk g).subscriptions g =
      removeEntry sk (lookupA m.subscriptions g) := by
  simp only [MemoryStore.RemoveSubscription]
  cases hl : lookupA m.subscriptions g with
  | none => simp [removeEntry, hl]
  | some l =>
      by_cases hmem : sk ∈ l
      · by_cases hnil : removeFirst l sk = []
        · simp [hmem, hnil, removeEntry, lookupA_eraseA]
        · simp [hmem, hnil, removeEntry, lookupA_insertA, hl]
      · simp [hmem, removeEntry, hl]

theorem subsOf_removeSub (m : MemoryStore) (sk g h : String) :
    subsOf (m.RemoveSubscription sk g) h =
      if h = g then removeFirst (subsOf m g) sk else subsOf m h := by
  by_cases hne : h = g
  · subst hne
    rw [if_pos rfl]
    simp only [subsOf, lookupA_removeSub_self]
    cases hl : lookupA m.subscriptions h with
    | none => simp [removeEntry, removeFirst]
    | some l =>
        by_cases hmem : sk ∈ l
        · by_cases hnil : removeFirst l sk = []
          · simp [removeEntry, hmem, hnil]
          · simp [removeEntry, hmem, hnil]
        · simp [removeEntry, hmem, removeFirst_of_not_mem l sk hmem]
  · rw [if_neg hne]
    simp only [subsOf, lookupA_removeSub_ne m sk g h hne]

theorem saveService_of_key_ne_empty (m : MemoryStore) (s : ServiceInfo)
    (h : s.GetKey ≠ "") :
    m.SaveService s = ({ m with services := insertA m.services s.GetKey s }, true) := by
  simp [MemoryStore.SaveService, h]

/-- The composite key always contains the separator, hence is never empty
(so the `SaveService` length guard never fires for a key built by
`GetKey`). -/
theorem getKey_ne_empty (s : ServiceInfo) : s.GetKey ≠ "" := by
  intro h
  have hlen : (s.ServiceName ++ ":" ++ s.PodName).length = 0 := by
    rw [show s.ServiceName ++ ":" ++ s.PodName = s.GetKey from rfl, h]
    rfl
  have hsep : (":" : String).length = 1 := rfl
  rw [String.length_append, String.length_append, hsep] at hlen
  omega

theorem updateHealth_of_present (m : MemoryStore) (key : String) (v : ServiceInfo)
    (status : ServiceStatus) (ts : Nat) (h : lookupA m.services key = some v) :
    m.UpdateHealthStatus key status ts =
      ({ m with services := insertA m.services key { v with Status := status, LastHealthCheck := ts } }, true) := by
  simp [MemoryStore.UpdateHealthStatus, h]

theorem deleteService_of_present (m : MemoryStore) (key : String) (v : ServiceInfo)
    (h : lookupA m.services key = some v) :
    m.DeleteService key = ({ m with services := eraseA m.services key }, true) := by
  simp [MemoryStore.DeleteService, h]

theorem addSub_empty_group (m : MemoryStore) (sk : String) :
    m.AddSubscription sk "" = m := by
  simp [MemoryStore.AddSubscription]

theorem addSub_of_mem (m : MemoryStore) (sk g : String) (h : sk ∈ subsOf m g) :
    m.AddSubscription sk g = m := by
  simp only [subsOf] at h
  simp [MemoryStore.AddSubscription, h]

theorem subsOf_addSub_ne (m : MemoryStore) (sk g h : String) (hne : h ≠ g) :
    subsOf (m.AddSubscription sk g) h = subsOf m h := by
  simp only [subsOf, lookupA_addSub_ne m sk g h hne]

/-! ### Lemmas: the registry's subscription folds -/

theorem removeSubscriptions_nil (m : MemoryStore) (sk : String) :
    removeSubscriptions m sk [] = m := rfl

theorem removeSubscriptions_cons (m : MemoryStore) (sk g : String) (rest : List String) :
    removeSubscriptions m sk (g :: rest) =
      removeSubscriptions (m.RemoveSubscription sk g) sk rest := rfl

theorem addSubscriptions_nil (m : MemoryStore) (sk : String) :
    addSubscriptions m sk [] = m := rfl

theorem addSubscriptions_cons (m : MemoryStore) (sk g : String) (rest : List String) :
    addSubscriptions m sk (g :: rest) =
      addSubscriptions (m.AddSubscription sk g) sk rest := rfl

theorem removeSubscriptions_services (m : MemoryStore) (sk : String) (subs : List String) :
    (removeSubscriptions m sk subs).services = m.services := by
  induction subs generalizing m with
  | nil => rfl
  | cons g rest ih =>
      rw [removeSubscriptions_cons, ih, removeSub_services]

theorem addSubscriptions_services (m : MemoryStore) (sk : String) (subs : List String) :
    (addSubscriptions m sk subs).services = m.services := by
  induction subs generalizing m with
  | nil => rfl
  | cons g rest ih =>
      rw [addSubscriptions_cons, ih, addSub_services]

theorem atMostOnce_of_subsWF (m : MemoryStore) (sk : String) (h : SubsWF m) :
    AtMostOnce m sk :=
  fun g l hl => not_mem_removeFirst_of_nodup l sk (h g l hl).2

theorem atMostOnce_removeSub (m : MemoryStore) (sk g : String) (h : AtMostOnce m sk) :
    AtMostOnce (m.RemoveSubscription sk g) sk := by
  intro g' l hl
  by_cases hg : g' = g
  · subst hg
    rw [lookupA_removeSub_self] at hl
    cases ho : lookupA m.subscriptions g' with
    | none => rw [ho] at hl; simp [removeEntry] at hl
    | some l0 =>
        rw [ho] at hl
        by_cases hmem : sk ∈ l0
        · by_cases hnil : removeFirst l0 sk = []
          · simp [removeEntry, hmem, hnil] at hl
          · simp only [removeEntry, if_pos hmem, if_neg hnil, Option.some.injEq] at hl
            subst hl
            have hnotmem : sk ∉ removeFirst l0 sk := h g' l0 ho
            rw [removeFirst_of_not_mem _ _ hnotmem]
            exact hnotmem
        · simp only [removeEntry, if_neg hmem, Option.some.injEq] at hl
          subst hl
          exact h g' l0 ho
  · rw [lookupA_removeSub_ne m sk g g' hg] at hl
    exact h g' l hl

theorem removeEntry_removeEntry (sk : String) (o : Option (List String))
    (h : ∀ l, o = some l → sk ∉ removeFirst l sk) :
    removeEntry sk (removeEntry sk o) = removeEntry sk o := by
  cases o with
  | none => rfl
  | some l =>
      by_cases hmem : sk ∈ l
      · by_cases hnil : removeFirst l sk = []
        · simp [removeEntry, hmem, hnil]
        · have hnm : sk ∉ removeFirst l sk := h l rfl
          simp [removeEntry, hmem, hnil, hnm]
      · simp [removeEntry, hmem]

theorem lookupA_removeSubscriptions (sk : String) (subs : List String) (m : MemoryStore)
    (g : String) (ham : AtMostOnce m sk) :
    lookupA (removeSubscriptions m sk subs).subscriptions g =
      if g ∈ subs then removeEntry sk (lookupA m.subscriptions g)
      else lookupA m.subscriptions g := by
  induction subs generalizing m with
  | nil => simp [removeSubscriptions_nil]
  | cons h rest ih =>
      rw [removeSubscriptions_cons, ih _ (atMostOnce_removeSub m sk h ham)]
      by_cases hgr : g ∈ rest
      · rw [if_pos hgr, if_pos (List.mem_cons.mpr (Or.inr hgr))]
        by_cases hgh : g = h
        · subst hgh
          rw [lookupA_removeSub_self]
          exact removeEntry_removeEntry sk _ (fun l hl => ham g l hl)
        · rw [lookupA_removeSub_ne m sk h g hgh]
      · rw [if_neg hgr]
        by_cases hgh : g = h
        · subst hgh
          rw [if_pos (List.mem_cons.mpr (Or.inl rfl))]
          exact lookupA_removeSub_self m sk g
        · rw [if_neg (by simp [List.mem_cons, hgh, hgr]), lookupA_removeSub_ne m sk h g hgh]

theorem lookupA_addSubscriptions (sk : String) (hsk : sk ≠ "") (subs : List String)
    (m : MemoryStore) (g : String) :
    lookupA (addSubscriptions m sk subs).subscriptions g =
      if g ∈ subs ∧ g ≠ "" ∧ sk ∉ subsOf m g then some (subsOf m g ++ [sk])
      else lookupA m.subscriptions g := by
  induction subs generalizing m with
  | nil => simp [addSubscriptions_nil]
  | cons h rest ih =>
      rw [addSubscriptions_cons, ih]
      by_cases hgh : g = h
      · subst hgh
        by_cases hge : g = ""
        · subst hge
          rw [addSub_empty_group]
          simp
        · by_cases hmem : sk ∈ subsOf m g
          · rw [addSub_of_mem m sk g hmem]
            simp [hmem]
          · have hmem' : sk ∉ (lookupA m.subscriptions g).getD [] := hmem
            have hsub : subsOf (m.AddSubscription sk g) g = subsOf m g ++ [sk] := by
              simp only [subsOf, lookupA_addSub_self]
              rw [if_neg (by simp [hsk, hge, hmem'])]
              rfl
            have hlook : lookupA (m.AddSubscription sk g).subscriptions g =
                some (subsOf m g ++ [sk]) := by
              rw [lookupA_addSub_self, if_neg (by simp [hsk, hge, hmem, hmem'])]
            have hnotc : ¬ (g ∈ rest ∧ g ≠ "" ∧ sk ∉ subsOf (m.AddSubscription sk g) g) := by
              intro hc
              apply hc.2.2
              rw [hsub]
              simp
            rw [if_neg hnotc, hlook,
              if_pos ⟨List.mem_cons.mpr (Or.inl rfl), hge, hmem⟩]
      · have hsub : subsOf (m.AddSubscription sk h) g = subsOf m g :=
          subsOf_addSub_ne m sk h g hgh
        have hlook : lookupA (m.AddSubscription sk h).subscriptions g =
            lookupA m.subscriptions g := lookupA_addSub_ne m sk h g hgh
        rw [hsub, hlook]
        simp only [List.mem_cons, hgh, false_or]

/-! ### Lemmas: well-formedness is preserved by every operation -/

theorem nodup_subsOf (m : MemoryStore) (g : String) (h : SubsWF m) :
    (subsOf m g).Nodup := by
  cases hl : lookupA m.subscriptions g with
  | none => simp [subsOf, hl]
  | some l =>
      have := (h g l hl).2
      simpa [subsOf, hl] using this

theorem subsWF_of_subscriptions_eq (a b : MemoryStore)
    (h : a.subscriptions = b.subscriptions) (hw : SubsWF b) : SubsWF a := by
  intro g l hl
  exact hw g l (h ▸ hl)

theorem subsWF_addSub (m : MemoryStore) (sk g : String) (h : SubsWF m) :
    SubsWF (m.AddSubscription sk g) := by
  intro g' l hl
  by_cases hg : g' = g
  · subst hg
    rw [lookupA_addSub_self] at hl
    by_cases hc : sk = "" ∨ g' = "" ∨ sk ∈ subsOf m g'
    · rw [if_pos hc] at hl
      exact h g' l hl
    · rw [if_neg hc] at hl
      push_neg at hc
      cases hl
      constructor
      · simp
      · have hnd : (subsOf m g').Nodup := nodup_subsOf m g' h
        have hnm : sk ∉ subsOf m g' := hc.2.2
        simpa [List.nodup_append] using ⟨hnd, fun hmem => hnm hmem⟩
  · rw [lookupA_addSub_ne m sk g g' hg] at hl
    exact h g' l hl

theorem subsWF_removeSub (m : MemoryStore) (sk g : String) (h : SubsWF m) :
    SubsWF (m.RemoveSubscription sk g) := by
  intro g' l hl
  by_cases hg : g' = g
  · subst hg
    rw [lookupA_removeSub_self] at hl
    cases ho : lookupA m.subscriptions g' with
    | none => rw [ho] at hl; simp [removeEntry] at hl
    | some l0 =>
        rw [ho] at hl
        by_cases hmem : sk ∈ l0
        · by_cases hnil : removeFirst l0 sk = []
          · simp [removeEntry, hmem, hnil] at hl
          · simp only [removeEntry, if_pos hmem, if_neg hnil, Option.some.injEq] at hl
            subst hl
            exact ⟨hnil, nodup_removeFirst l0 sk (h g' l0 ho).2⟩
        · simp only [removeEntry, if_neg hmem, Option.some.injEq] at hl
          subst hl
          exact h g' l0 ho
  · rw [lookupA_removeSub_ne m sk g g' hg] at hl
    exact h g' l hl

theorem subsWF_addSubscriptions (sk : String) (subs : List String) (m : MemoryStore)
    (h : SubsWF m) : SubsWF (addSubscriptions m sk subs) := by
  induction subs generalizing m with
  | nil => exact h
  | cons g rest ih =>
      rw [addSubscriptions_cons]
      exact ih _ (subsWF_addSub m sk g h)

theorem subsWF_removeSubscriptions (sk : String) (subs : List String) (m : MemoryStore)
    (h : SubsWF m) : SubsWF (removeSubscriptions m sk subs) := by
  induction subs generalizing m with
  | nil => exact h
  | cons g rest ih =>
      rw [removeSubscriptions_cons]
      exact ih _ (subsWF_removeSub m sk g h)

theorem subsWF_removeAll (m : MemoryStore) (sk : String) (h : SubsWF m) :
    SubsWF (m.RemoveAllSubscriptions sk) := by
  unfold MemoryStore.RemoveAllSubscriptions
  generalize (m.subscriptions.map (·.1)) = ks
  induction ks generalizing m with
  | nil => exact h
  | cons g rest ih =>
      simp only [List.foldl_cons]
      exact ih _ (subsWF_removeSub m sk g h)

theorem saveService_subscriptions (m : MemoryStore) (s : ServiceInfo) :
    (m.SaveService s).1.subscriptions = m.subscriptions := by
  unfold MemoryStore.SaveService
  split
  all_goals rfl

theorem updateHealth_subscriptions (m : MemoryStore) (key : String)
    (status : ServiceStatus) (ts : Nat) :
    (m.UpdateHealthStatus key status ts).1.subscriptions = m.subscriptions := by
  unfold MemoryStore.UpdateHealthStatus
  cases lookupA m.services key
  all_goals rfl

theorem deleteService_subscriptions (m : MemoryStore) (key : String) :
    (m.DeleteService key).1.subscriptions = m.subscriptions := by
  unfold MemoryStore.DeleteService
  cases lookupA m.services key
  all_goals rfl

/-! ### Lemmas: registry operations, unfolded -/

/-- The key of the `ServiceInfo` built by `Register` is the registration's
composite key. -/
theorem mkServiceInfo_getKey (reg : ServiceRegistration) (now : Nat) :
    (mkServiceInfo reg now).GetKey = reg.key := rfl

theorem regKey_ne_empty (reg : ServiceRegistration) : reg.key ≠ "" := by
  have := getKey_ne_empty (mkServiceInfo reg 0)
  rwa [mkServiceInfo_getKey] at this

theorem registerR_fst (m : MemoryStore) (reg : ServiceRegistration) (now : Nat) :
    (RegisterR m reg now).1 = mkServiceInfo reg now := by
  cases hg : m.GetService (mkServiceInfo reg now).GetKey with
  | none =>
      cases hs : m.SaveService (mkServiceInfo reg now) with
      | mk m2 ok => cases ok <;> simp [RegisterR, hg, hs]
  | some old =>
      cases hs : (removeSubscriptions m (mkServiceInfo reg now).GetKey
          old.Subscriptions).SaveService (mkServiceInfo reg now) with
      | mk m2 ok => cases ok <;> simp [RegisterR, hg, hs]

theorem registerR_services (m : MemoryStore) (reg : ServiceRegistration) (now : Nat) :
    (RegisterR m reg now).2.services = insertA m.services reg.key (mkServiceInfo reg now) := by
  have hkey : (mkServiceInfo reg now).GetKey ≠ "" := getKey_ne_empty _
  cases hg : m.GetService (mkServiceInfo reg now).GetKey with
  | none =>
      have hs := saveService_of_key_ne_empty m (mkServiceInfo reg now) hkey
      rw [mkServiceInfo_getKey] at hg hs
      simp [RegisterR, hg, hs, addSubscriptions_services, mkServiceInfo_getKey]
  | some old =>
      have hs := saveService_of_key_ne_empty
        (removeSubscriptions m (mkServiceInfo reg now).GetKey old.Subscriptions)
        (mkServiceInfo reg now) hkey
      rw [mkServiceInfo_getKey] at hg hs
      simp [RegisterR, hg, hs, addSubscriptions_services, removeSubscriptions_services,
        mkServiceInfo_getKey]

theorem addSub_subscriptions_congr (a b : MemoryStore) (sk g : String)
    (h : a.subscriptions = b.subscriptions) :
    (a.AddSubscription sk g).subscriptions = (b.AddSubscription sk g).subscriptions := by
  unfold MemoryStore.AddSubscription
  rw [h]
  dsimp only
  repeat' split
  all_goals first | rfl | exact h

theorem removeSub_subscriptions_congr (a b : MemoryStore) (sk g : String)
    (h : a.subscriptions = b.subscriptions) :
    (a.RemoveSubscription sk g).subscriptions = (b.RemoveSubscription sk g).subscriptions := by
  unfold MemoryStore.RemoveSubscription
  rw [h]
  cases lookupA b.subscriptions g with
  | none => exact h
  | some l =>
      dsimp only
      repeat' split
      all_goals first | rfl | exact h

theorem addSubscriptions_subscriptions_congr (sk : String) (subs : List String)
    (a b : MemoryStore) (h : a.subscriptions = b.subscriptions) :
    (addSubscriptions a sk subs).subscriptions = (addSubscriptions b sk subs).subscriptions := by
  induction subs generalizing a b with
  | nil => exact h
  | cons g rest ih =>
      rw [addSubscriptions_cons, addSubscriptions_cons]
      exact ih _ _ (addSub_subscriptions_congr a b sk g h)

theorem registerR_subscriptions_absent (m : MemoryStore) (reg : ServiceRegistration)
    (now : Nat) (h : lookupA m.services reg.key = none) :
    (RegisterR m reg now).2.subscriptions =
      (addSubscriptions m reg.key reg.Subscriptions).subscriptions := by
  have hkey : (mkServiceInfo reg now).GetKey ≠ "" := getKey_ne_empty _
  have hg : m.GetService (mkServiceInfo reg now).GetKey = none := h
  have hs := saveService_of_key_ne_empty m (mkServiceInfo reg now) hkey
  simp only [RegisterR, hg, hs]
  exact addSubscriptions_subscriptions_congr _ reg.Subscriptions _ m rfl

theorem registerR_subscriptions_present (m : MemoryStore) (reg : ServiceRegistration)
    (now : Nat) (old : ServiceInfo) (h : lookupA m.services reg.key = some old) :
    (RegisterR m reg now).2.subscriptions =
      (addSubscriptions (removeSubscriptions m reg.key old.Subscriptions)
        reg.key reg.Subscriptions).subscriptions := by
  have hkey : (mkServiceInfo reg now).GetKey ≠ "" := getKey_ne_empty _
  have hg : m.GetService (mkServiceInfo reg now).GetKey = some old := h
  have hs := saveService_of_key_ne_empty
    (removeSubscriptions m (mkServiceInfo reg now).GetKey old.Subscriptions)
    (mkServiceInfo reg now) hkey
  simp only [RegisterR, hg, hs]
  exact addSubscriptions_subscriptions_congr _ reg.Subscriptions _ _ rfl

theorem unregisterR_of_absent (m : MemoryStore) (sn pn : String)
    (h : lookupA m.services (sn ++ ":" ++ pn) = none) :
    UnregisterR m sn pn = (none, m) := by
  have hg : m.GetService (sn ++ ":" ++ pn) = none := h
  simp [UnregisterR, hg]

theorem unregisterR_of_present (m : MemoryStore) (sn pn : String) (v : ServiceInfo)
    (h : lookupA m.services (sn ++ ":" ++ pn) = some v) :
    (UnregisterR m sn pn).1 = some v ∧
    (UnregisterR m sn pn).2.services = eraseA m.services (sn ++ ":" ++ pn) ∧
    (UnregisterR m sn pn).2.subscriptions =
      (removeSubscriptions m (sn ++ ":" ++ pn) v.Subscriptions).subscriptions := by
  have hg : m.GetService (sn ++ ":" ++ pn) = some v := h
  have h1 : lookupA (removeSubscriptions m (sn ++ ":" ++ pn) v.Subscriptions).services
      (sn ++ ":" ++ pn) = some v := by
    rw [removeSubscriptions_services]
    exact h
  have hd := deleteService_of_present _ _ _ h1
  refine ⟨?_, ?_, ?_⟩
  · simp [UnregisterR, hg, hd]
  · simp [UnregisterR, hg, hd, removeSubscriptions_services]
  · simp [UnregisterR, hg, hd]

theorem updateR_of_absent (m : MemoryStore) (key : String) (st : ServiceStatus)
    (now : Nat) (h : lookupA m.services key = none) :
    UpdateHealthStatusR m key st now = (false, m) := by
  have hg : m.GetService key = none := h
  simp [UpdateHealthStatusR, hg]

theorem updateR_of_present (m : MemoryStore) (key : String) (v : ServiceInfo)
    (st : ServiceStatus) (now : Nat) (h : lookupA m.services key = some v) :
    UpdateHealthStatusR m key st now =
      (if v.Status = st then false else true,
       { m with services := insertA m.services key { v with Status := st, LastHealthCheck := now } }) := by
  have hg : m.GetService key = some v := h
  have hu := updateHealth_of_present m key v st now h
  simp [UpdateHealthStatusR, hg, hu]

/-! ### Lemmas: membership through removeEntry, subsOf through the folds -/

theorem removeFirst_eq_nil (l : List String) (sk : String)
    (h : removeFirst l sk = []) (hmem : sk ∈ l) : l = [sk] := by
  cases l with
  | nil => cases hmem
  | cons x t =>
      by_cases hx : x = sk
      · subst hx
        have h' : t = [] := by simpa [removeFirst] using h
        rw [h']
      · have hstep : removeFirst (x :: t) sk = x :: removeFirst t sk := by
          simp [removeFirst, hx]
        rw [hstep] at h
        cases h

theorem mem_removeEntry_getD_of_ne (sk j : String) (hne : j ≠ sk)
    (o : Option (List String)) :
    j ∈ (removeEntry sk o).getD [] ↔ j ∈ o.getD [] := by
  cases o with
  | none => rfl
  | some l =>
      by_cases hmem : sk ∈ l
      · by_cases hnil : removeFirst l sk = []
        · have hl : l = [sk] := removeFirst_eq_nil l sk hnil hmem
          subst hl
          simp [removeEntry, hnil, hne]
        · simp [removeEntry, hmem, hnil, mem_removeFirst_of_ne l sk j hne]
      · simp [removeEntry, hmem]

theorem not_mem_removeEntry_getD (sk : String) (o : Option (List String))
    (h : ∀ l, o = some l → sk ∉ removeFirst l sk) :
    sk ∉ (removeEntry sk o).getD [] := by
  cases o with
  | none => simp [removeEntry]
  | some l =>
      by_cases hmem : sk ∈ l
      · by_cases hnil : removeFirst l sk = []
        · simp [removeEntry, hmem, hnil]
        · simpa [removeEntry, hmem, hnil] using h l rfl
      · simp [removeEntry, hmem]

theorem subsOf_removeSubscriptions (sk : String) (subs : List String) (m : MemoryStore)
    (g : String) (ham : AtMostOnce m sk) :
    subsOf (removeSubscriptions m sk subs) g =
      if g ∈ subs then (removeEntry sk (lookupA m.subscriptions g)).getD []
      else subsOf m g := by
  simp only [subsOf, lookupA_removeSubscriptions sk subs m g ham]
  by_cases hg : g ∈ subs
  · simp [hg]
  · simp [hg]

theorem subsOf_addSubscriptions (sk : String) (hsk : sk ≠ "") (subs : List String)
    (m : MemoryStore) (g : String) :
    subsOf (addSubscriptions m sk subs) g =
      if g ∈ subs ∧ g ≠ "" ∧ sk ∉ subsOf m g then subsOf m g ++ [sk]
      else subsOf m g := by
  simp only [subsOf, lookupA_addSubscriptions sk hsk subs m g]
  by_cases hg : g ∈ subs ∧ g ≠ "" ∧ sk ∉ (lookupA m.subscriptions g).getD []
  · simp [hg.1, hg.2.1, hg.2.2, subsOf]
  · have hg' : ¬ (g ∈ subs ∧ g ≠ "" ∧ sk ∉ subsOf m g) := hg
    simp [if_neg hg, if_neg hg']

/-! ### Lemmas: the registry invariants survive every operation -/

theorem subsWF_empty : SubsWF emptyStore := by
  intro g l hl
  cases hl

theorem indexSound_empty : IndexSound emptyStore := by
  intro g k hk
  simp [subsOf, emptyStore, lookupA] at hk

theorem indexComplete_empty : IndexComplete emptyStore := by
  intro k v g hk
  cases hk

theorem registerR_preserves_wf_sound (m : MemoryStore) (reg : ServiceRegistration)
    (now : Nat) (hwf : SubsWF m) (hs : IndexSound m) :
    SubsWF (RegisterR m reg now).2 ∧ IndexSound (RegisterR m reg now).2 := by
  have hkey : reg.key ≠ "" := regKey_ne_empty reg
  have ham : AtMostOnce m reg.key := atMostOnce_of_subsWF m reg.key hwf
  cases hold : lookupA m.services reg.key with
  | none =>
      have hsubs := registerR_subscriptions_absent m reg now hold
      have hserv := registerR_services m reg now
      constructor
      · exact subsWF_of_subscriptions_eq _ _ hsubs (subsWF_addSubscriptions _ _ _ hwf)
      · intro g j hj
        simp only [subsOf, hsubs] at hj
        rw [show (lookupA (addSubscriptions m reg.key reg.Subscriptions).subscriptions g).getD []
            = subsOf (addSubscriptions m reg.key reg.Subscriptions) g from rfl,
          subsOf_addSubscriptions reg.key hkey reg.Subscriptions m g] at hj
        by_cases hcond : g ∈ reg.Subscriptions ∧ g ≠ "" ∧ reg.key ∉ subsOf m g
        · rw [if_pos hcond] at hj
          rcases List.mem_append.mp hj with hj1 | hj2
          · rcases hs g j hj1 with ⟨v, hv, hgv⟩
            refine ⟨v, ?_, hgv⟩
            rw [hserv, lookupA_insertA]
            have hjk : j ≠ reg.key := fun he => hcond.2.2 (he ▸ hj1)
            rw [if_neg hjk]
            exact hv
          · have hj2' : j = reg.key := by simpa using hj2
            subst hj2'
            refine ⟨mkServiceInfo reg now, ?_, hcond.1⟩
            rw [hserv, lookupA_insertA, if_pos rfl]
        · rw [if_neg hcond] at hj
          rcases hs g j hj with ⟨v, hv, hgv⟩
          have hjk : j ≠ reg.key := by
            intro he
            subst he
            rw [hold] at hv
            cases hv
          refine ⟨v, ?_, hgv⟩
          rw [hserv, lookupA_insertA, if_neg hjk]
          exact hv
  | some old =>
      have hsubs := registerR_subscriptions_present m reg now old hold
      have hserv := registerR_services m reg now
      have hwfmid : SubsWF (removeSubscriptions m reg.key old.Subscriptions) :=
        subsWF_removeSubscriptions _ _ _ hwf
      constructor
      · exact subsWF_of_subscriptions_eq _ _ hsubs (subsWF_addSubscriptions _ _ _ hwfmid)
      · intro g j hj
        simp only [subsOf, hsubs] at hj
        rw [show (lookupA (addSubscriptions (removeSubscriptions m reg.key old.Subscriptions)
              reg.key reg.Subscriptions).subscriptions g).getD []
            = subsOf (addSubscriptions (removeSubscriptions m reg.key old.Subscriptions)
              reg.key reg.Subscriptions) g from rfl,
          subsOf_addSubscriptions reg.key hkey reg.Subscriptions _ g] at hj
        have hmid : subsOf (removeSubscriptions m reg.key old.Subscriptions) g =
            if g ∈ old.Subscriptions then (removeEntry reg.key (lookupA m.subscriptions g)).getD []
            else subsOf m g := subsOf_removeSubscriptions reg.key old.Subscriptions m g ham
        by_cases hcond : g ∈ reg.Subscriptions ∧ g ≠ "" ∧
            reg.key ∉ subsOf (removeSubscriptions m reg.key old.Subscriptions) g
        · rw [if_pos hcond] at hj
          rcases List.mem_append.mp hj with hj1 | hj2
          · rw [hmid] at hj1
            by_cases hjk : j = reg.key
            · refine ⟨mkServiceInfo reg now, ?_, hcond.1⟩
              rw [hserv, lookupA_insertA, if_pos hjk]
            · have hjm : j ∈ subsOf m g := by
                by_cases hgo : g ∈ old.Subscriptions
                · rw [if_pos hgo] at hj1
                  exact (mem_removeEntry_getD_of_ne reg.key j hjk _).mp hj1
                · rw [if_neg hgo] at hj1
                  exact hj1
              rcases hs g j hjm with ⟨v, hv, hgv⟩
              refine ⟨v, ?_, hgv⟩
              rw [hserv, lookupA_insertA, if_neg hjk]
              exact hv
          · have hj2' : j = reg.key := by simpa using hj2
            refine ⟨mkServiceInfo reg now, ?_, hcond.1⟩
            rw [hserv, lookupA_insertA, if_pos hj2']
        · rw [if_neg hcond] at hj
          rw [hmid] at hj
          have hjm : j ∈ subsOf m g ∧ j ≠ reg.key := by
            by_cases hgo : g ∈ old.Subscriptions
            · rw [if_pos hgo] at hj
              by_cases hjk : j = reg.key
              · rw [hjk] at hj
                exact absurd hj (not_mem_removeEntry_getD reg.key _ (fun l hl => ham g l hl))
              · exact ⟨(mem_removeEntry_getD_of_ne reg.key j hjk _).mp hj, hjk⟩
            · rw [if_neg hgo] at hj
              by_cases hjk : j = reg.key
              · rw [hjk] at hj
                rcases hs g reg.key hj with ⟨v, hv, hgv⟩
                rw [hold] at hv
                cases hv
                exact absurd hgv hgo
              · exact ⟨hj, hjk⟩
          rcases hs g j hjm.1 with ⟨v, hv, hgv⟩
          refine ⟨v, ?_, hgv⟩
          rw [hserv, lookupA_insertA, if_neg hjm.2]
          exact hv

theorem registerR_preserves_complete (m : MemoryStore) (reg : ServiceRegistration)
    (now : Nat) (hwf : SubsWF m) (_hs : IndexSound m) (hc : IndexComplete m)
    (hv : "" ∉ reg.Subscriptions) :
    IndexComplete (RegisterR m reg now).2 := by
  have hkey : reg.key ≠ "" := regKey_ne_empty reg
  have ham : AtMostOnce m reg.key := atMostOnce_of_subsWF m reg.key hwf
  have hserv := registerR_services m reg now
  intro j v g hjv hgv
  rw [hserv, lookupA_insertA] at hjv
  by_cases hjk : j = reg.key
  · rw [if_pos hjk] at hjv
    cases hjv
    have hgsub : g ∈ reg.Subscriptions := hgv
    have hge : g ≠ "" := fun he => hv (he ▸ hgsub)
    rw [hjk]
    cases hold : lookupA m.services reg.key with
    | none =>
        have hsubs := registerR_subscriptions_absent m reg now hold
        have hsg : subsOf (RegisterR m reg now).2 g =
            subsOf (addSubscriptions m reg.key reg.Subscriptions) g := by
          simp only [subsOf, hsubs]
        rw [hsg, subsOf_addSubscriptions reg.key hkey _ m g]
        by_cases hmem : reg.key ∈ subsOf m g
        · rw [if_neg (by simp [hmem])]
          exact hmem
        · rw [if_pos ⟨hgsub, hge, hmem⟩]
          simp
    | some old =>
        have hsubs := registerR_subscriptions_present m reg now old hold
        have hsg : subsOf (RegisterR m reg now).2 g =
            subsOf (addSubscriptions (removeSubscriptions m reg.key old.Subscriptions)
              reg.key reg.Subscriptions) g := by
          simp only [subsOf, hsubs]
        rw [hsg, subsOf_addSubscriptions reg.key hkey _ _ g]
        by_cases hmem : reg.key ∈ subsOf (removeSubscriptions m reg.key old.Subscriptions) g
        · rw [if_neg (by simp [hmem])]
          exact hmem
        · rw [if_pos ⟨hgsub, hge, hmem⟩]
          simp
  · rw [if_neg hjk] at hjv
    have hjm : j ∈ subsOf m g := hc j v g hjv hgv
    cases hold : lookupA m.services reg.key with
    | none =>
        have hsubs := registerR_subscriptions_absent m reg now hold
        have hsg : subsOf (RegisterR m reg now).2 g =
            subsOf (addSubscriptions m reg.key reg.Subscriptions) g := by
          simp only [subsOf, hsubs]
        rw [hsg, subsOf_addSubscriptions reg.key hkey _ m g]
        by_cases hcond : g ∈ reg.Subscriptions ∧ g ≠ "" ∧ reg.key ∉ subsOf m g
        · rw [if_pos hcond]
          exact List.mem_append_left _ hjm
        · rw [if_neg hcond]
          exact hjm
    | some old =>
        have hsubs := registerR_subscriptions_present m reg now old hold
        have hsg : subsOf (RegisterR m reg now).2 g =
            subsOf (addSubscriptions (removeSubscriptions m reg.key old.Subscriptions)
              reg.key reg.Subscriptions) g := by
          simp only [subsOf, hsubs]
        have hmid : j ∈ subsOf (removeSubscriptions m reg.key old.Subscriptions) g := by
          rw [subsOf_removeSubscriptions reg.key old.Subscriptions m g ham]
          by_cases hgo : g ∈ old.Subscriptions
          · rw [if_pos hgo]
            exact (mem_removeEntry_getD_of_ne reg.key j hjk _).mpr hjm
          · rw [if_neg hgo]
            exact hjm
        rw [hsg, subsOf_addSubscriptions reg.key hkey _ _ g]
        by_cases hcond : g ∈ reg.Subscriptions ∧ g ≠ "" ∧
            reg.key ∉ subsOf (removeSubscriptions m reg.key old.Subscriptions) g
        · rw [if_pos hcond]
          exact List.mem_append_left _ hmid
        · rw [if_neg hcond]
          exact hmid

theorem unregisterR_preserves (m : MemoryStore) (sn pn : String)
    (hwf : SubsWF m) (hs : IndexSound m) (hc : IndexComplete m) :
    SubsWF (UnregisterR m sn pn).2 ∧ IndexSound (UnregisterR m sn pn).2 ∧
      IndexComplete (UnregisterR m sn pn).2 := by
  cases hold : lookupA m.services (sn ++ ":" ++ pn) with
  | none =>
      rw [unregisterR_of_absent m sn pn hold]
      exact ⟨hwf, hs, hc⟩
  | some v =>
      rcases unregisterR_of_present m sn pn v hold with ⟨hfst, hserv, hsubs⟩
      have ham : AtMostOnce m (sn ++ ":" ++ pn) := atMostOnce_of_subsWF m _ hwf
      have hsg : ∀ g, subsOf (UnregisterR m sn pn).2 g =
          subsOf (removeSubscriptions m (sn ++ ":" ++ pn) v.Subscriptions) g := by
        intro g
        simp only [subsOf, hsubs]
      refine ⟨?_, ?_, ?_⟩
      · exact subsWF_of_subscriptions_eq _ _ hsubs
          (subsWF_removeSubscriptions _ _ _ hwf)
      · intro g j hj
        rw [hsg g, subsOf_removeSubscriptions _ _ m g ham] at hj
        by_cases hjk : j = (sn ++ ":" ++ pn)
        · exfalso
          rw [hjk] at hj
          by_cases hgo : g ∈ v.Subscriptions
          · rw [if_pos hgo] at hj
            exact not_mem_removeEntry_getD _ _ (fun l hl => ham g l hl) hj
          · rw [if_neg hgo] at hj
            rcases hs g _ hj with ⟨w, hw, hgw⟩
            rw [hold] at hw
            cases hw
            exact hgo hgw
        · have hjm : j ∈ subsOf m g := by
            by_cases hgo : g ∈ v.Subscriptions
            · rw [if_pos hgo] at hj
              exact (mem_removeEntry_getD_of_ne _ j hjk _).mp hj
            · rw [if_neg hgo] at hj
              exact hj
          rcases hs g j hjm with ⟨w, hw, hgw⟩
          refine ⟨w, ?_, hgw⟩
          rw [hserv, lookupA_eraseA, if_neg hjk]
          exact hw
      · intro j w g hjw hgw
        rw [hserv, lookupA_eraseA] at hjw
        by_cases hjk : j = (sn ++ ":" ++ pn)
        · rw [if_pos hjk] at hjw
          cases hjw
        · rw [if_neg hjk] at hjw
          have hjm : j ∈ subsOf m g := hc j w g hjw hgw
          rw [hsg g, subsOf_removeSubscriptions _ _ m g ham]
          by_cases hgo : g ∈ v.Subscriptions
          · rw [if_pos hgo]
            exact (mem_removeEntry_getD_of_ne _ j hjk _).mpr hjm
          · rw [if_neg hgo]
            exact hjm

theorem updateR_preserves (m : MemoryStore) (key : String) (st : ServiceStatus)
    (now : Nat) (hwf : SubsWF m) (hs : IndexSound m) (hc : IndexComplete m) :
    SubsWF (UpdateHealthStatusR m key st now).2 ∧
      IndexSound (UpdateHealthStatusR m key st now).2 ∧
      IndexComplete (UpdateHealthStatusR m key st now).2 := by
  cases hold : lookupA m.services key with
  | none =>
      rw [updateR_of_absent m key st now hold]
      exact ⟨hwf, hs, hc⟩
  | some v =>
      rw [updateR_of_present m key v st now hold]
      refine ⟨?_, ?_, ?_⟩
      · exact subsWF_of_subscriptions_eq _ _ rfl hwf
      · intro g j hj
        have hj' : j ∈ subsOf m g := hj
        rcases hs g j hj' with ⟨w, hw, hgw⟩
        by_cases hjk : j = key
        · refine ⟨{ v with Status := st, LastHealthCheck := now }, ?_, ?_⟩
          · show lookupA (insertA m.services key _) j = _
            rw [lookupA_insertA, if_pos hjk]
          · rw [hjk] at hw
            rw [hold] at hw
            cases hw
            exact hgw
        · refine ⟨w, ?_, hgw⟩
          show lookupA (insertA m.services key _) j = _
          rw [lookupA_insertA, if_neg hjk]
          exact hw
      · intro j w g hjw hgw
        have hjw' : lookupA (insertA m.services key { v with Status := st, LastHealthCheck := now }) j = some w := hjw
        rw [lookupA_insertA] at hjw'
        by_cases hjk : j = key
        · rw [if_pos hjk] at hjw'
          cases hjw'
          have hgv : g ∈ v.Subscriptions := hgw
          have := hc key v g hold hgv
          rw [hjk]
          exact this
        · rw [if_neg hjk] at hjw'
          exact hc j w g hjw' hgw

theorem registerR_subsWF (m : MemoryStore) (reg : ServiceRegistration) (now : Nat)
    (hwf : SubsWF m) : SubsWF (RegisterR m reg now).2 := by
  cases hold : lookupA m.services reg.key with
  | none =>
      exact subsWF_of_subscriptions_eq _ _ (registerR_subscriptions_absent m reg now hold)
        (subsWF_addSubscriptions _ _ _ hwf)
  | some old =>
      exact subsWF_of_subscriptions_eq _ _ (registerR_subscriptions_present m reg now old hold)
        (subsWF_addSubscriptions _ _ _ (subsWF_removeSubscriptions _ _ _ hwf))

theorem unregisterR_subsWF (m : MemoryStore) (sn pn : String)
    (hwf : SubsWF m) : SubsWF (UnregisterR m sn pn).2 := by
  cases hold : lookupA m.services (sn ++ ":" ++ pn) with
  | none =>
      rw [unregisterR_of_absent m sn pn hold]
      exact hwf
  | some v =>
      exact subsWF_of_subscriptions_eq _ _ (unregisterR_of_present m sn pn v hold).2.2
        (subsWF_removeSubscriptions _ _ _ hwf)

theorem updateR_subsWF (m : MemoryStore) (key : String) (st : ServiceStatus) (now : Nat)
    (hwf : SubsWF m) : SubsWF (UpdateHealthStatusR m key st now).2 := by
  cases hold : lookupA m.services key with
  | none =>
      rw [updateR_of_absent m key st now hold]
      exact hwf
  | some v =>
      rw [updateR_of_present m key v st now hold]
      exact subsWF_of_subscriptions_eq _ _ rfl hwf

theorem applyOp_preserves_inv (m : MemoryStore) (op : RegOp)
    (hwf : SubsWF m) (hs : IndexSound m) (hc : IndexComplete m) (hv : ValidOp op) :
    SubsWF (applyOp m op) ∧ IndexSound (applyOp m op) ∧ IndexComplete (applyOp m op) := by
  cases op with
  | registerOp reg now =>
      have h12 := registerR_preserves_wf_sound m reg now hwf hs
      exact ⟨h12.1, h12.2, registerR_preserves_complete m reg now hwf hs hc hv⟩
  | unregisterOp sn pn => exact unregisterR_preserves m sn pn hwf hs hc
  | updateOp key st now => exact updateR_preserves m key st now hwf hs hc

theorem foldl_preserves_inv (ops : List RegOp) (m : MemoryStore)
    (hwf : SubsWF m) (hs : IndexSound m) (hc : IndexComplete m)
    (hv : ∀ op ∈ ops, ValidOp op) :
    SubsWF (ops.foldl applyOp m) ∧ IndexSound (ops.foldl applyOp m) ∧
      IndexComplete (ops.foldl applyOp m) := by
  induction ops generalizing m with
  | nil => exact ⟨hwf, hs, hc⟩
  | cons op rest ih =>
      rw [List.foldl_cons]
      have hstep := applyOp_preserves_inv m op hwf hs hc
        (hv op (List.mem_cons.mpr (Or.inl rfl)))
      exact ih (applyOp m op) hstep.1 hstep.2.1 hstep.2.2
        (fun o ho => hv o (List.mem_cons.mpr (Or.inr ho)))

theorem runOps_inv (ops : List RegOp) (hv : ∀ op ∈ ops, ValidOp op) :
    SubsWF (runOps ops) ∧ IndexSound (runOps ops) ∧ IndexComplete (runOps ops) :=
  foldl_preserves_inv ops emptyStore subsWF_empty indexSound_empty indexComplete_empty hv

/-! ### Lemmas: RemoveAllSubscriptions -/

theorem lookupA_mem {α : Type} (l : List (String × α)) (k : String) (v : α)
    (h : lookupA l k = some v) : (k, v) ∈ l := by
  induction l with
  | nil => cases h
  | cons p t ih =>
      by_cases hp : p.1 = k
      · simp only [lookupA, if_pos hp] at h
        cases h
        rw [← hp]
        exact List.mem_cons_self p t
      · simp only [lookupA, if_neg hp] at h
        exact List.mem_cons.mpr (Or.inr (ih h))

theorem subsWF_of_forall_entries (m : MemoryStore)
    (h : ∀ p ∈ m.subscriptions, p.2 ≠ [] ∧ p.2.Nodup) : SubsWF m := by
  intro g l hl
  exact h (g, l) (lookupA_mem m.subscriptions g l hl)

theorem removeAll_eq_foldl (m : MemoryStore) (sk : String) :
    m.RemoveAllSubscriptions sk =
      (m.subscriptions.map (·.1)).foldl (fun s g => s.RemoveSubscription sk g) m := rfl

theorem foldl_removeSub_subsOf_not_mem (sk : String) (ks : List String) (m : MemoryStore)
    (g : String) (hg : g ∉ ks) :
    subsOf (ks.foldl (fun s h => s.RemoveSubscription sk h) m) g = subsOf m g := by
  induction ks generalizing m with
  | nil => rfl
  | cons h t ih =>
      simp only [List.mem_cons] at hg
      push_neg at hg
      simp only [List.foldl_cons]
      rw [ih _ hg.2, subsOf_removeSub, if_neg hg.1]

theorem foldl_removeSub_subsOf_mem (sk : String) (ks : List String) (m : MemoryStore)
    (g : String) (hnd : ks.Nodup) (hg : g ∈ ks) :
    subsOf (ks.foldl (fun s h => s.RemoveSubscription sk h) m) g =
      removeFirst (subsOf m g) sk := by
  induction ks generalizing m with
  | nil => cases hg
  | cons h t ih =>
      rcases List.nodup_cons.mp hnd with ⟨hh, ht⟩
      simp only [List.foldl_cons]
      rcases List.mem_cons.mp hg with hgh | hgt
      · subst hgh
        rw [foldl_removeSub_subsOf_not_mem sk t _ g hh, subsOf_removeSub, if_pos rfl]
      · rw [ih _ ht hgt, subsOf_removeSub]
        have hne : g ≠ h := fun he => hh (he ▸ hgt)
        rw [if_neg hne]

theorem removeAll_subsOf (m : MemoryStore) (sk g : String)
    (hkeys : (m.subscriptions.map (·.1)).Nodup) :
    subsOf (m.RemoveAllSubscriptions sk) g = removeFirst (subsOf m g) sk := by
  rw [removeAll_eq_foldl]
  by_cases hg : g ∈ m.subscriptions.map (·.1)
  · exact foldl_removeSub_subsOf_mem sk _ m g hkeys hg
  · rw [foldl_removeSub_subsOf_not_mem sk _ m g hg]
    have hnone : lookupA m.subscriptions g = none :=
      lookupA_eq_none_of_not_mem_keys m.subscriptions g hg
    simp [subsOf, hnone, removeFirst]

/-! ### Lemmas: more congruence and entry facts for the round trip -/

theorem removeSubscriptions_subscriptions_congr (sk : String) (subs : List String)
    (a b : MemoryStore) (h : a.subscriptions = b.subscriptions) :
    (removeSubscriptions a sk subs).subscriptions =
      (removeSubscriptions b sk subs).subscriptions := by
  induction subs generalizing a b with
  | nil => exact h
  | cons g rest ih =>
      rw [removeSubscriptions_cons, removeSubscriptions_cons]
      exact ih _ _ (removeSub_subscriptions_congr a b sk g h)

theorem removeEntry_of_not_mem (sk : String) (o : Option (List String))
    (h : ∀ l, o = some l → sk ∉ l) : removeEntry sk o = o := by
  cases o with
  | none => rfl
  | some l => simp [removeEntry, h l rfl]

theorem lookupA_of_subsOf_ne_nil (m : MemoryStore) (g : String)
    (h : subsOf m g ≠ []) : lookupA m.subscriptions g = some (subsOf m g) := by
  cases hl : lookupA m.subscriptions g with
  | none => exact absurd (by simp [subsOf, hl]) h
  | some l => simp [subsOf, hl]

/-! ### Lemmas: worker handlers -/

theorem handleHealthCheck_fst (m : MemoryStore) (key : String) (st : ServiceStatus)
    (now : Nat) :
    (handleHealthCheck m key st now).1 = (UpdateHealthStatusR m key st now).2 := by
  cases hg : m.GetService key with
  | none =>
      have hg' : lookupA m.services key = none := hg
      rw [updateR_of_absent m key st now hg']
      simp [handleHealthCheck, hg]
  | some v =>
      cases hu : UpdateHealthStatusR m key st now with
      | mk changed m1 => cases changed <;> simp [handleHealthCheck, hg, hu]

theorem handleHealthCheck_no_notifs_of_unchanged (m : MemoryStore) (key : String)
    (st : ServiceStatus) (now : Nat) (h : (UpdateHealthStatusR m key st now).1 = false) :
    (handleHealthCheck m key st now).2 = [] := by
  cases hg : m.GetService key with
  | none => simp [handleHealthCheck, hg]
  | some v =>
      cases hu : UpdateHealthStatusR m key st now with
      | mk changed m1 =>
          rw [hu] at h
          cases h
          simp [handleHealthCheck, hg, hu]

theorem handleReconcile_fst (m : MemoryStore) (now : Nat) :
    (handleReconcile m now).1 = m := rfl

theorem handleReconcile_snd (m : MemoryStore) (now : Nat) :
    (handleReconcile m now).2 =
      (groupByName m.GetAllServices).foldr
        (fun group acc =>
          let payload := BuildNotificationPayload group.1 EventType.reconcile group.2 now
          let subscribers := m.GetSubscriberServices group.1
          if subscribers.length > 0 then NotifySubscribers subscribers payload ++ acc
          else acc)
        [] := rfl

theorem reconcile_notifs_time_invariant (m : MemoryStore) (t t' : Nat) :
    ((handleReconcile m t).2.map notifCore) = ((handleReconcile m t').2.map notifCore) := by
  rw [handleReconcile_snd, handleReconcile_snd]
  generalize groupByName m.GetAllServices = groups
  induction groups with
  | nil => rfl
  | cons p rest ih =>
      simp only [List.foldr_cons]
      by_cases hs : (m.GetSubscriberServices p.1).length > 0
      · rw [if_pos hs, if_pos hs]
        simp only [List.map_append, ih]
        congr 1
        simp [NotifySubscribers, notifCore, payloadCore, BuildNotificationPayload]
      · rw [if_neg hs, if_neg hs]
        exact ih

/-! ### Lemmas: the health-check retry loop -/

theorem attemptsLoop_le (probe : Nat → AttemptResult) (r : Nat) :
    ∀ a, attemptsLoop probe a r ≤ r := by
  induction r with
  | zero => intro a; simp [attemptsLoop]
  | succ n ih =>
      intro a
      by_cases h : attemptSucceeds (probe a)
      · simp [attemptsLoop, h]
      · simp only [attemptsLoop, if_neg h]
        have := ih (a + 1)
        omega

theorem checkLoop_iff (probe : Nat → AttemptResult) (r : Nat) :
    ∀ a, checkLoop probe a r = true ↔
      ∃ i, i < attemptsLoop probe a r ∧ attemptSucceeds (probe (a + i)) = true := by
  induction r with
  | zero =>
      intro a
      simp [checkLoop, attemptsLoop]
  | succ n ih =>
      intro a
      by_cases h : attemptSucceeds (probe a)
      · simp only [checkLoop, if_pos h, attemptsLoop]
        constructor
        · intro _
          exact ⟨0, by simp [h]⟩
        · intro _
          trivial
      · simp only [checkLoop, if_neg h, attemptsLoop]
        rw [ih (a + 1)]
        constructor
        · rintro ⟨i, hi, hsucc⟩
          refine ⟨i + 1, by omega, ?_⟩
          have : a + 1 + i = a + (i + 1) := by omega
          rwa [this] at hsucc
        · rintro ⟨i, hi, hsucc⟩
          cases i with
          | zero =>
              rw [Nat.add_zero] at hsucc
              exact absurd hsucc (by simpa using h)
          | succ j =>
              refine ⟨j, by omega, ?_⟩
              have : a + 1 + j = a + (j + 1) := by omega
              rwa [this]

theorem backoffsLoop_of_pos (probe : Nat → AttemptResult) (r : Nat) :
    ∀ a, 1 ≤ a → backoffsLoop probe a r =
      (List.range' (a - 1) (attemptsLoop probe a r)).map (fun i => 2 ^ i) := by
  induction r with
  | zero => intro a _; simp [backoffsLoop, attemptsLoop]
  | succ n ih =>
      intro a ha
      have hane : ¬ a = 0 := by omega
      by_cases h : attemptSucceeds (probe a)
      · simp only [backoffsLoop, if_neg hane, if_pos h, attemptsLoop]
        rw [List.range'_succ]
        simp
      · simp only [backoffsLoop, if_neg hane, if_neg h, attemptsLoop]
        rw [ih (a + 1) (by omega)]
        have h1 : a + 1 - 1 = a := by omega
        have h2 : 1 + attemptsLoop probe (a + 1) n = attemptsLoop probe (a + 1) n + 1 := by
          omega
        have h3 : a - 1 + 1 = a := by omega
        rw [h1, h2, List.range'_succ, h3]
        simp

theorem backoffs_eq (probe : Nat → AttemptResult) (maxRetries : Nat) :
    backoffs probe maxRetries =
      (List.range (attemptsMade probe maxRetries - 1)).map (fun i => 2 ^ i) := by
  unfold backoffs attemptsMade
  by_cases h : attemptSucceeds (probe 0)
  · simp [backoffsLoop, attemptsLoop, h]
  · cases maxRetries with
    | zero => simp [backoffsLoop, attemptsLoop, h]
    | succ n =>
        have hstep : backoffsLoop probe 0 (n + 1 + 1) = backoffsLoop probe 1 (n + 1) := by
          simp [backoffsLoop, h]
        have hstep2 : attemptsLoop probe 0 (n + 1 + 1) = 1 + attemptsLoop probe 1 (n + 1) := by
          simp [attemptsLoop, h]
        rw [hstep, hstep2, backoffsLoop_of_pos probe (n + 1) 1 (by omega)]
        have h1 : 1 + attemptsLoop probe 1 (n + 1) - 1 = attemptsLoop probe 1 (n + 1) := by
          omega
        rw [h1, List.range_eq_range']

/-! ### Claim theorems -/

/-- C1 counterexample: the claim as stated fails.  Registering `a:p` with
subscription list `[""]` (a legal registration value) stores `""` in the
service's `subscriptions`, but `AddSubscription` rejects the empty group
name, so `("a:p", "")` never enters the index: the "conversely" direction of
the invariant is violated after this one-operation sequence. -/
theorem c1_counterexample :
    ¬ IndexComplete (runOps [RegOp.registerOp regEmptyGroup 0]) := by
  intro h
  have hmem := h "a:p" (mkServiceInfo regEmptyGroup 0) "" (by decide) (by decide)
  exact absurd hmem (by decide)

/-- C1 (amended): after any finite sequence of Register, Unregister and
UpdateHealthStatus operations from the empty registry in which every
Register's subscription list contains no empty group name, the subscription
index is sound (every `(subscriberKey, group)` entry belongs to a registered
service whose `subscriptions` contains the group) and complete (every group
of a registered service's `subscriptions` appears in the index); in
particular a further re-registration of key `K` leaves no index entry for
`K` whose group is outside the new registration's subscriptions. -/
theorem c1_subscription_index_invariant (ops : List RegOp)
    (hv : ∀ op ∈ ops, ValidOp op) :
    IndexSound (runOps ops) ∧ IndexComplete (runOps ops) ∧
    (∀ reg now g, "" ∉ reg.Subscriptions →
      reg.key ∈ subsOf (RegisterR (runOps ops) reg now).2 g → g ∈ reg.Subscriptions) := by
  obtain ⟨hwf, hs, hc⟩ := runOps_inv ops hv
  refine ⟨hs, hc, ?_⟩
  intro reg now g _ hmem
  have h2 := (registerR_preserves_wf_sound (runOps ops) reg now hwf hs).2
  rcases h2 g reg.key hmem with ⟨v, hv', hgv⟩
  rw [registerR_services, lookupA_insertA, if_pos rfl] at hv'
  cases hv'
  exact hgv

/-- C1 witness: the invariant holds concretely after registering `a:p`
(subscribing to `B`), registering `B:q`, and re-registering `a:p`. -/
theorem c1_witness :
    IndexSound (runOps [RegOp.registerOp regA 1, RegOp.registerOp regB 2,
      RegOp.registerOp regA 3]) ∧
    IndexComplete (runOps [RegOp.registerOp regA 1, RegOp.registerOp regB 2,
      RegOp.registerOp regA 3]) :=
  ⟨(c1_subscription_index_invariant
      [RegOp.registerOp regA 1, RegOp.registerOp regB 2, RegOp.registerOp regA 3]
      (by decide)).1,
   (c1_subscription_index_invariant
      [RegOp.registerOp regA 1, RegOp.registerOp regB 2, RegOp.registerOp regA 3]
      (by decide)).2.1⟩

/-- C2: on a registered key, `UpdateHealthStatus` writes the new status and
`lastHealthCheck = now` (also when the status value is unchanged), returns
true exactly when the status value changed, and touches nothing else; on an
absent key it returns false and changes nothing. -/
theorem c2_update_health_status (m : MemoryStore) (key : String) (st : ServiceStatus)
    (now : Nat) :
    (∀ v, lookupA m.services key = some v →
      (UpdateHealthStatusR m key st now).2.GetService key =
          some { v with Status := st, LastHealthCheck := now } ∧
      ((UpdateHealthStatusR m key st now).1 = true ↔ v.Status ≠ st) ∧
      (∀ k', k' ≠ key →
        (UpdateHealthStatusR m key st now).2.GetService k' = m.GetService k') ∧
      (UpdateHealthStatusR m key st now).2.subscriptions = m.subscriptions) ∧
    (lookupA m.services key = none → UpdateHealthStatusR m key st now = (false, m)) := by
  constructor
  · intro v hv
    rw [updateR_of_present m key v st now hv]
    refine ⟨?_, ?_, ?_, rfl⟩
    · show lookupA (insertA m.services key _) key = _
      rw [lookupA_insertA, if_pos rfl]
    · by_cases hvs : v.Status = st
      · simp [hvs]
      · simp [hvs]
    · intro k' hk'
      show lookupA (insertA m.services key _) k' = _
      rw [lookupA_insertA, if_neg hk']
      rfl
  · exact updateR_of_absent m key st now

/-- C2 witness: updating `a:p` (status unknown) to healthy at time 5 writes
the status and timestamp and reports a change. -/
theorem c2_witness :
    (UpdateHealthStatusR (runOps [RegOp.registerOp regA 1]) "a:p"
        ServiceStatus.healthy 5).2.GetService "a:p" =
      some { mkServiceInfo regA 1 with Status := ServiceStatus.healthy, LastHealthCheck := 5 } ∧
    (UpdateHealthStatusR (runOps [RegOp.registerOp regA 1]) "a:p"
        ServiceStatus.healthy 5).1 = true := by
  have h := (c2_update_health_status (runOps [RegOp.registerOp regA 1]) "a:p"
    ServiceStatus.healthy 5).1 (mkServiceInfo regA 1) (by decide)
  exact ⟨h.1, h.2.1.mpr (by decide)⟩

/-- C3: the healthcheck handler fans out only when `UpdateHealthStatus`
reports a change, and a second consecutive healthcheck event whose probe
yields the same status produces no notification. -/
theorem c3_healthcheck_change_gated (m : MemoryStore) (key : String)
    (st : ServiceStatus) (t1 t2 : Nat) :
    ((UpdateHealthStatusR m key st t1).1 = false →
      (handleHealthCheck m key st t1).2 = []) ∧
    (handleHealthCheck (handleHealthCheck m key st t1).1 key st t2).2 = [] := by
  constructor
  · exact handleHealthCheck_no_notifs_of_unchanged m key st t1
  · rw [handleHealthCheck_fst]
    cases hg : lookupA m.services key with
    | none =>
        rw [updateR_of_absent m key st t1 hg]
        exact handleHealthCheck_no_notifs_of_unchanged m key st t2
          (by rw [updateR_of_absent m key st t2 hg])
    | some v =>
        rw [updateR_of_present m key v st t1 hg]
        have hg1 : lookupA (insertA m.services key
            { v with Status := st, LastHealthCheck := t1 }) key =
            some { v with Status := st, LastHealthCheck := t1 } := by
          rw [lookupA_insertA, if_pos rfl]
        apply handleHealthCheck_no_notifs_of_unchanged
        rw [updateR_of_present _ key { v with Status := st, LastHealthCheck := t1 } st t2 hg1]
        simp

/-- C3 witness: with `a:p` registered, one healthy probe may notify; the
second healthy probe in a row notifies nobody. -/
theorem c3_witness :
    (handleHealthCheck (handleHealthCheck (runOps [RegOp.registerOp regA 1]) "a:p"
        ServiceStatus.healthy 3).1 "a:p" ServiceStatus.healthy 4).2 = [] :=
  (c3_healthcheck_change_gated (runOps [RegOp.registerOp regA 1]) "a:p"
    ServiceStatus.healthy 3 4).2

/-- C9: every subscription entry is a non-empty duplicate-free subscriber
list (`SubsWF`); `AddSubscription`, `RemoveSubscription`,
`RemoveAllSubscriptions` and the registry operations built on them preserve
this; adding an already-subscribed key is a state no-op; removing the last
subscriber deletes the group's entry. -/
theorem c9_subscription_entries_invariant :
    (∀ m sk g, SubsWF m → SubsWF (m.AddSubscription sk g)) ∧
    (∀ m sk g, SubsWF m → SubsWF (m.RemoveSubscription sk g)) ∧
    (∀ m sk, SubsWF m → SubsWF (m.RemoveAllSubscriptions sk)) ∧
    (∀ m reg now, SubsWF m → SubsWF (RegisterR m reg now).2) ∧
    (∀ m sn pn, SubsWF m → SubsWF (UnregisterR m sn pn).2) ∧
    (∀ m key st now, SubsWF m → SubsWF (UpdateHealthStatusR m key st now).2) ∧
    (∀ m sk g, sk ∈ subsOf m g → m.AddSubscription sk g = m) ∧
    (∀ (m : MemoryStore) (sk g : String) (l : List String),
      lookupA m.subscriptions g = some l → sk ∈ l →
      removeFirst l sk = [] →
      lookupA (m.RemoveSubscription sk g).subscriptions g = none) := by
  refine ⟨subsWF_addSub, subsWF_removeSub, subsWF_removeAll, registerR_subsWF,
    unregisterR_subsWF, updateR_subsWF, addSub_of_mem, ?_⟩
  intro m sk g l hl hmem hnil
  rw [lookupA_removeSub_self, hl]
  simp [removeEntry, hmem, hnil]

/-- C9 witness: concrete instances — well-formedness survives an
`AddSubscription`, re-adding `a:p` to `B` is a no-op, and removing the sole
subscriber of `B` deletes the entry. -/
theorem c9_witness :
    SubsWF ((runOps [RegOp.registerOp regA 1]).AddSubscription "B:q" "B") ∧
    (runOps [RegOp.registerOp regA 1]).AddSubscription "a:p" "B" =
      runOps [RegOp.registerOp regA 1] ∧
    lookupA ((runOps [RegOp.registerOp regA 1]).RemoveSubscription "a:p" "B").subscriptions
      "B" = none :=
  ⟨c9_subscription_entries_invariant.1 (runOps [RegOp.registerOp regA 1]) "B:q" "B"
      (subsWF_of_forall_entries _ (by decide)),
   c9_subscription_entries_invariant.2.2.2.2.2.2.1 (runOps [RegOp.registerOp regA 1])
      "a:p" "B" (by decide),
   c9_subscription_entries_invariant.2.2.2.2.2.2.2 (runOps [RegOp.registerOp regA 1])
      "a:p" "B" ["a:p"] (by decide) (by decide) (by decide)⟩

/-- C10: on a store whose subscription entries are well-formed maps (no
duplicate group keys, duplicate-free lists), `RemoveAllSubscriptions sk`
removes `sk` from every group's list and leaves every other subscriber's
membership in every group unchanged, despite mutating the map while
iterating its keys. -/
theorem c10_remove_all_subscriptions (m : MemoryStore) (sk : String)
    (hwf : SubsWF m) (hkeys : (m.subscriptions.map (·.1)).Nodup) :
    (∀ g, sk ∉ subsOf (m.RemoveAllSubscriptions sk) g) ∧
    (∀ g j, j ≠ sk →
      (j ∈ subsOf (m.RemoveAllSubscriptions sk) g ↔ j ∈ subsOf m g)) := by
  constructor
  · intro g
    rw [removeAll_subsOf m sk g hkeys]
    exact not_mem_removeFirst_of_nodup _ sk (nodup_subsOf m g hwf)
  · intro g j hj
    rw [removeAll_subsOf m sk g hkeys]
    exact mem_removeFirst_of_ne _ sk j hj

/-- C10 witness: removing all of `a:p`'s subscriptions in a two-service
registry empties its membership and disturbs nobody else. -/
theorem c10_witness :
    (∀ g, "a:p" ∉ subsOf ((runOps [RegOp.registerOp regA 1,
        RegOp.registerOp regB 2]).RemoveAllSubscriptions "a:p") g) ∧
    (∀ g j, j ≠ "a:p" →
      (j ∈ subsOf ((runOps [RegOp.registerOp regA 1,
          RegOp.registerOp regB 2]).RemoveAllSubscriptions "a:p") g ↔
        j ∈ subsOf (runOps [RegOp.registerOp regA 1, RegOp.registerOp regB 2]) g)) :=
  c10_remove_all_subscriptions (runOps [RegOp.registerOp regA 1, RegOp.registerOp regB 2])
    "a:p" (subsWF_of_forall_entries _ (by decide)) (by decide)

/-- C5 counterexample: the claim as stated fails — re-registering the same
key at a later time overwrites `registeredAt` with the new registration
time, so it is not "set exactly once and never mutated". -/
theorem c5_counterexample :
    ((RegisterR (RegisterR emptyStore regA 1).2 regA 2).2.GetService "a:p").map
        (fun v => v.RegisteredAt) = some 2 ∧
    (((RegisterR emptyStore regA 1).2.GetService "a:p").map
        (fun v => v.RegisteredAt)) = some 1 := by
  constructor
  · decide
  · decide

/-- C5 (amended): `registeredAt` is written only by `Register` — each
Register call stamps its own key with the current time (so re-registration
refreshes it) and leaves every other key's `registeredAt` unchanged;
`UpdateHealthStatus` and `Unregister` never change any surviving service's
`registeredAt`. -/
theorem c5_registered_at (m : MemoryStore) :
    (∀ key st now k',
      ((UpdateHealthStatusR m key st now).2.GetService k').map (fun v => v.RegisteredAt) =
        (m.GetService k').map (fun v => v.RegisteredAt)) ∧
    (∀ sn pn k', k' ≠ sn ++ ":" ++ pn →
      ((UnregisterR m sn pn).2.GetService k').map (fun v => v.RegisteredAt) =
        (m.GetService k').map (fun v => v.RegisteredAt)) ∧
    (∀ reg now, ((RegisterR m reg now).2.GetService reg.key).map
        (fun v => v.RegisteredAt) = some now) ∧
    (∀ reg now k', k' ≠ reg.key →
      ((RegisterR m reg now).2.GetService k').map (fun v => v.RegisteredAt) =
        (m.GetService k').map (fun v => v.RegisteredAt)) := by
  refine ⟨?_, ?_, ?_, ?_⟩
  · intro key st now k'
    cases hold : lookupA m.services key with
    | none => rw [updateR_of_absent m key st now hold]
    | some v =>
        rw [updateR_of_present m key v st now hold]
        show (lookupA (insertA m.services key _) k').map _ = _
        rw [lookupA_insertA]
        by_cases hk : k' = key
        · rw [if_pos hk, hk]
          show _ = (lookupA m.services key).map _
          rw [hold]
          rfl
        · rw [if_neg hk]
          rfl
  · intro sn pn k' hk'
    cases hold : lookupA m.services (sn ++ ":" ++ pn) with
    | none => rw [unregisterR_of_absent m sn pn hold]
    | some v =>
        rcases unregisterR_of_present m sn pn v hold with ⟨_, hserv, _⟩
        show (lookupA (UnregisterR m sn pn).2.services k').map _ = _
        rw [hserv, lookupA_eraseA, if_neg hk']
        rfl
  · intro reg now
    show (lookupA (RegisterR m reg now).2.services reg.key).map _ = _
    rw [registerR_services, lookupA_insertA, if_pos rfl]
    rfl
  · intro reg now k' hk'
    show (lookupA (RegisterR m reg now).2.services k').map _ = _
    rw [registerR_services, lookupA_insertA, if_neg hk']
    rfl

/-- C5 witness: concrete checks of the amended statement — a health update
at time 7 keeps `registeredAt = 1`, and a fresh registration stamps its own
time. -/
theorem c5_witness :
    ((UpdateHealthStatusR (runOps [RegOp.registerOp regA 1]) "a:p"
        ServiceStatus.healthy 7).2.GetService "a:p").map (fun v => v.RegisteredAt) =
      ((runOps [RegOp.registerOp regA 1]).GetService "a:p").map (fun v => v.RegisteredAt) ∧
    (((RegisterR (runOps [RegOp.registerOp regA 1]) regB 9).2.GetService "B:q").map
        (fun v => v.RegisteredAt)) = some 9 :=
  ⟨(c5_registered_at (runOps [RegOp.registerOp regA 1])).1 "a:p"
      ServiceStatus.healthy 7 "a:p",
   (c5_registered_at (runOps [RegOp.registerOp regA 1])).2.2.1 regB 9⟩

/-- C7: unregistering an absent key returns nil, changes nothing, and the
worker's unregister handler sends no notification; unregistering a present
key (in a store satisfying the index invariants) returns the removed record,
deletes it, retracts every one of its index entries and leaves all other
services and subscribers untouched. -/
theorem c7_unregister_absent_noop (m : MemoryStore) (sn pn : String) (now : Nat) :
    (lookupA m.services (sn ++ ":" ++ pn) = none →
      UnregisterR m sn pn = (none, m) ∧ handleUnregister m sn pn now = (m, [])) ∧
    (∀ v, lookupA m.services (sn ++ ":" ++ pn) = some v → SubsWF m → IndexSound m →
      (UnregisterR m sn pn).1 = some v ∧
      (UnregisterR m sn pn).2.GetService (sn ++ ":" ++ pn) = none ∧
      (∀ k', k' ≠ sn ++ ":" ++ pn →
        (UnregisterR m sn pn).2.GetService k' = m.GetService k') ∧
      (∀ g, (sn ++ ":" ++ pn) ∉ subsOf (UnregisterR m sn pn).2 g) ∧
      (∀ g j, j ≠ sn ++ ":" ++ pn →
        (j ∈ subsOf (UnregisterR m sn pn).2 g ↔ j ∈ subsOf m g))) := by
  constructor
  · intro h
    have hU := unregisterR_of_absent m sn pn h
    exact ⟨hU, by simp [handleUnregister, hU]⟩
  · intro v hv hwf hsound
    rcases unregisterR_of_present m sn pn v hv with ⟨hfst, hserv, hsubs⟩
    have ham : AtMostOnce m (sn ++ ":" ++ pn) := atMostOnce_of_subsWF m _ hwf
    have hsg : ∀ g, subsOf (UnregisterR m sn pn).2 g =
        subsOf (removeSubscriptions m (sn ++ ":" ++ pn) v.Subscriptions) g := by
      intro g
      simp only [subsOf, hsubs]
    refine ⟨hfst, ?_, ?_, ?_, ?_⟩
    · show lookupA (UnregisterR m sn pn).2.services _ = none
      rw [hserv, lookupA_eraseA, if_pos rfl]
    · intro k' hk'
      show lookupA (UnregisterR m sn pn).2.services k' = lookupA m.services k'
      rw [hserv, lookupA_eraseA, if_neg hk']
    · intro g
      rw [hsg g, subsOf_removeSubscriptions _ _ m g ham]
      by_cases hgo : g ∈ v.Subscriptions
      · rw [if_pos hgo]
        exact not_mem_removeEntry_getD _ _ (fun l hl => ham g l hl)
      · rw [if_neg hgo]
        intro hmem
        rcases hsound g _ hmem with ⟨w, hw, hgw⟩
        rw [hv] at hw
        cases hw
        exact hgo hgw
    · intro g j hj
      rw [hsg g, subsOf_removeSubscriptions _ _ m g ham]
      by_cases hgo : g ∈ v.Subscriptions
      · rw [if_pos hgo]
        exact mem_removeEntry_getD_of_ne _ j hj _
      · rw [if_neg hgo]

/-- C7 witness: unregistering the never-registered `x:y` is a no-op with no
notification, and unregistering the present `a:p` returns its record and
clears its index entries. -/
theorem c7_witness :
    UnregisterR (runOps [RegOp.registerOp regA 1]) "x" "y" =
      (none, runOps [RegOp.registerOp regA 1]) ∧
    handleUnregister (runOps [RegOp.registerOp regA 1]) "x" "y" 5 =
      (runOps [RegOp.registerOp regA 1], []) ∧
    (UnregisterR (runOps [RegOp.registerOp regA 1]) "a" "p").1 =
      some (mkServiceInfo regA 1) ∧
    (∀ g, "a:p" ∉ subsOf (UnregisterR (runOps [RegOp.registerOp regA 1]) "a" "p").2 g) := by
  have habs := (c7_unregister_absent_noop (runOps [RegOp.registerOp regA 1]) "x" "y" 5).1
    (by decide)
  have hpres := (c7_unregister_absent_noop (runOps [RegOp.registerOp regA 1]) "a" "p" 5).2
    (mkServiceInfo regA 1) (by decide)
    (subsWF_of_forall_entries _ (by decide))
    (fun g k hk => by
      have hg : g = "B" ∧ k = "a:p" := by
        revert hk
        rw [show subsOf (runOps [RegOp.registerOp regA 1]) g =
            if g = "B" then ["a:p"] else [] from ?_]
        · by_cases hgB : g = "B"
          · rw [if_pos hgB]
            intro hk
            exact ⟨hgB, by simpa using hk⟩
          · rw [if_neg hgB]
            intro hk
            cases hk
        · by_cases hgB : g = "B"
          · rw [if_pos hgB, hgB]
            decide
          · rw [if_neg hgB]
            have hne : ¬ ("B" : String) = g := fun h => hgB h.symm
            have hnone : lookupA (runOps [RegOp.registerOp regA 1]).subscriptions g = none := by
              rw [show (runOps [RegOp.registerOp regA 1]).subscriptions =
                  [("B", ["a:p"])] from by decide]
              simp [lookupA, hne]
            simp [subsOf, hnone]
      rw [hg.1, hg.2]
      exact ⟨mkServiceInfo regA 1, by decide, by decide⟩)
  exact ⟨habs.1, habs.2, hpres.1, hpres.2.2.2.1⟩

/-- C4 counterexample: the round-trip law fails from a state where the key
is already registered — registering `a:p` again and then unregistering it
deletes the record entirely instead of restoring the pre-existing one. -/
theorem c4_counterexample :
    ¬ StoreEq (UnregisterR (RegisterR (RegisterR emptyStore regA 1).2 regA 2).2
        "a" "p").2 (RegisterR emptyStore regA 1).2 := by
  intro h
  exact absurd (h.1 "a:p") (by decide)

/-- C4 (amended): `register(r); unregister(r.serviceName, r.podName)`
restores the registry (as the pair of Go maps, read extensionally) for every
starting state in which `r`'s key is not registered, appears in no group's
subscriber list, and the store holds no empty subscriber-list entry — the
last two conditions hold in every state reachable from the empty registry.
When the key is already registered, the round trip loses the previous
incarnation. -/
theorem c4_register_unregister_roundtrip (m : MemoryStore) (reg : ServiceRegistration)
    (now : Nat) (habs : lookupA m.services reg.key = none)
    (hidx : ∀ g, reg.key ∉ subsOf m g)
    (hnonil : ∀ g l, lookupA m.subscriptions g = some l → l ≠ []) :
    StoreEq (UnregisterR (RegisterR m reg now).2 reg.ServiceName reg.PodName).2 m := by
  have hkey : reg.key ≠ "" := regKey_ne_empty reg
  have hserv1 := registerR_services m reg now
  have hsubs1 := registerR_subscriptions_absent m reg now habs
  have hlook1 : lookupA (RegisterR m reg now).2.services
      (reg.ServiceName ++ ":" ++ reg.PodName) = some (mkServiceInfo reg now) := by
    rw [hserv1, show reg.ServiceName ++ ":" ++ reg.PodName = reg.key from rfl,
      lookupA_insertA, if_pos rfl]
  rcases unregisterR_of_present _ _ _ _ hlook1 with ⟨_, hserv2, hsubs2⟩
  constructor
  · intro k'
    rw [hserv2, hserv1, show reg.ServiceName ++ ":" ++ reg.PodName = reg.key from rfl,
      lookupA_eraseA]
    by_cases hk : k' = reg.key
    · rw [if_pos hk, hk, habs]
    · rw [if_neg hk, lookupA_insertA, if_neg hk]
  · intro g
    rw [hsubs2]
    have hcong : (removeSubscriptions (RegisterR m reg now).2
        (reg.ServiceName ++ ":" ++ reg.PodName)
        (mkServiceInfo reg now).Subscriptions).subscriptions =
        (removeSubscriptions (addSubscriptions m reg.key reg.Subscriptions)
          reg.key reg.Subscriptions).subscriptions :=
      removeSubscriptions_subscriptions_congr _ _ _ _ hsubs1
    rw [hcong]
    have hamA : AtMostOnce (addSubscriptions m reg.key reg.Subscriptions) reg.key := by
      intro g' l hl
      rw [lookupA_addSubscriptions reg.key hkey _ m g'] at hl
      by_cases hc : g' ∈ reg.Subscriptions ∧ g' ≠ "" ∧ reg.key ∉ subsOf m g'
      · rw [if_pos hc] at hl
        cases hl
        rw [removeFirst_append_singleton _ _ (hidx g')]
        exact hidx g'
      · rw [if_neg hc] at hl
        have hnm : reg.key ∉ l := by
          have h2 := hidx g'
          simp only [subsOf, hl] at h2
          exact h2
        rw [removeFirst_of_not_mem _ _ hnm]
        exact hnm
    rw [lookupA_removeSubscriptions reg.key reg.Subscriptions _ g hamA,
      lookupA_addSubscriptions reg.key hkey reg.Subscriptions m g]
    by_cases hg : g ∈ reg.Subscriptions
    · by_cases hge : g = ""
      · have hc : ¬ (g ∈ reg.Subscriptions ∧ g ≠ "" ∧ reg.key ∉ subsOf m g) := by
          simp [hge]
        rw [if_pos hg, if_neg hc]
        exact removeEntry_of_not_mem reg.key _ (fun l hl => by
          have h2 := hidx g
          simp only [subsOf, hl] at h2
          exact h2)
      · have hc : g ∈ reg.Subscriptions ∧ g ≠ "" ∧ reg.key ∉ subsOf m g :=
          ⟨hg, hge, hidx g⟩
        rw [if_pos hg, if_pos hc]
        have hmem : reg.key ∈ subsOf m g ++ [reg.key] := by simp
        have hrf : removeFirst (subsOf m g ++ [reg.key]) reg.key = subsOf m g :=
          removeFirst_append_singleton _ _ (hidx g)
        simp only [removeEntry, if_pos hmem, hrf]
        by_cases hnil : subsOf m g = []
        · rw [if_pos hnil]
          cases hlm : lookupA m.subscriptions g with
          | none => rfl
          | some l =>
              exfalso
              apply hnonil g l hlm
              have hsl : subsOf m g = l := by simp [subsOf, hlm]
              rw [← hsl, hnil]
        · rw [if_neg hnil]
          exact (lookupA_of_subsOf_ne_nil m g hnil).symm
    · have hc : ¬ (g ∈ reg.Subscriptions ∧ g ≠ "" ∧ reg.key ∉ subsOf m g) := by
        simp [hg]
      rw [if_neg hg, if_neg hc]

/-- C4 witness: over a registry holding only `B:q`, registering `a:p` and
unregistering it restores the state exactly. -/
theorem c4_witness :
    StoreEq (UnregisterR (RegisterR (runOps [RegOp.registerOp regB 2]) regA 5).2
      "a" "p").2 (runOps [RegOp.registerOp regB 2]) :=
  c4_register_unregister_roundtrip (runOps [RegOp.registerOp regB 2]) regA 5
    (by decide)
    (fun g => by
      have hsub : (runOps [RegOp.registerOp regB 2]).subscriptions = [] := by decide
      simp [subsOf, hsub, lookupA])
    (fun g l hl => by
      have hsub : (runOps [RegOp.registerOp regB 2]).subscriptions = [] := by decide
      rw [hsub] at hl
      cases hl)

/-- C6: the health checker performs at most `maxRetries + 1` attempts,
reports healthy exactly when one of the attempts it performed got a 2xx
response, sleeps exponentially (1, 2, 4, ... seconds, i.e. `2^(i-1)` before
retry attempt `i`), and reports unhealthy when every available attempt
fails. -/
theorem c6_health_checker (probe : Nat → AttemptResult) (maxRetries : Nat) :
    attemptsMade probe maxRetries ≤ maxRetries + 1 ∧
    (GetHealthStatus probe maxRetries = ServiceStatus.healthy ↔
      ∃ i, i < attemptsMade probe maxRetries ∧ attemptSucceeds (probe i) = true) ∧
    backoffs probe maxRetries =
      (List.range (attemptsMade probe maxRetries - 1)).map (fun i => 2 ^ i) ∧
    ((∀ i, i ≤ maxRetries → attemptSucceeds (probe i) = false) →
      GetHealthStatus probe maxRetries = ServiceStatus.unhealthy) := by
  have hiff := checkLoop_iff probe (maxRetries + 1) 0
  simp only [Nat.zero_add] at hiff
  refine ⟨attemptsLoop_le probe (maxRetries + 1) 0, ?_, backoffs_eq probe maxRetries, ?_⟩
  · unfold GetHealthStatus CheckHealth attemptsMade
    by_cases hc : checkLoop probe 0 (maxRetries + 1) = true
    · rw [if_pos hc]
      simp only [true_iff]
      rcases hiff.mp hc with ⟨i, hi, hs⟩
      exact ⟨i, hi, hs⟩
    · rw [if_neg hc]
      constructor
      · intro h
        cases h
      · intro ⟨i, hi, hs⟩
        exact absurd (hiff.mpr ⟨i, hi, hs⟩) hc
  · intro hall
    unfold GetHealthStatus CheckHealth
    have hfalse : ¬ checkLoop probe 0 (maxRetries + 1) = true := by
      intro hc
      rcases hiff.mp hc with ⟨i, hi, hs⟩
      have hle : i ≤ maxRetries := by
        have := attemptsLoop_le probe (maxRetries + 1) 0
        omega
      rw [hall i hle] at hs
      cases hs
    rw [if_neg hfalse]

/-- C6 witness: with transport errors on attempts 0 and 2+ and a 204
response on attempt 1, three allowed retries end healthy after two attempts
and a single one-second backoff. -/
theorem c6_witness :
    GetHealthStatus probeW 3 = ServiceStatus.healthy ∧
    attemptsMade probeW 3 ≤ 4 ∧
    backoffs probeW 3 = [1] := by
  refine ⟨(c6_health_checker probeW 3).2.1.mpr ⟨1, by decide, by decide⟩,
    (c6_health_checker probeW 3).1, ?_⟩
  have h := (c6_health_checker probeW 3).2.2.1
  rw [h]
  decide

/-- C8: with no database configured, a reconcile leaves the cache untouched,
so two consecutive reconciles with no intervening mutation both leave the
cache identical and deliver the same payload (service name, event type, full
pod list) to the same subscribers — only the timestamps differ. -/
theorem c8_reconcile_idempotent (m : MemoryStore) (t1 t2 : Nat) :
    (handleReconcile m t1).1 = m ∧
    (handleReconcile (handleReconcile m t1).1 t2).1 = m ∧
    (handleReconcile (handleReconcile m t1).1 t2).2.map notifCore =
      (handleReconcile m t1).2.map notifCore := by
  refine ⟨rfl, rfl, ?_⟩
  rw [handleReconcile_fst]
  exact reconcile_notifs_time_invariant m t2 t1

/-- C8 witness: two reconciles over the `a:p` / `B:q` registry deliver the
identical timestamp-free notification stream. -/
theorem c8_witness :
    (handleReconcile (handleReconcile (runOps [RegOp.registerOp regA 1,
        RegOp.registerOp regB 2]) 10).1 20).2.map notifCore =
      (handleReconcile (runOps [RegOp.registerOp regA 1,
        RegOp.registerOp regB 2]) 10).2.map notifCore :=
  (c8_reconcile_idempotent (runOps [RegOp.registerOp regA 1, RegOp.registerOp regB 2])
    10 20).2.2

end Governance
